import Mathlib

/-
  Shallow embedding of the cache-emulator core (src/cache.rs, src/trace.rs).

  Machine integers (u64 counters, stamps, addresses) are modelled as Nat:
  the code only increments, divides and compares them, and a trace long
  enough to overflow a u64 counter is not representable.  The u32 bit
  vectors of the multi-column predictor are modelled as Nat kept below
  2 ^ 32 (the shift amount of `1u32 << k` wraps at 32, as in release
  builds, and `mark`/`clear` guard `way >= 32` exactly as the source does).
  f64-valued derived rates are modelled as exact rationals: the properties
  at issue are the division-by-zero guards, not rounding.
-/

namespace CacheEmu

/-- Prediction strategy selector (src/cache.rs `PredictionStrategy`). -/
inductive PredictionStrategy where
  | none
  | mru
  | multiColumn
deriving DecidableEq, Repr

/-- Access kind (src/trace.rs `AccessKind`). -/
inductive AccessKind where
  | read
  | write
deriving DecidableEq, Repr

/-- One trace entry (src/trace.rs `TraceAccess`). -/
structure TraceAccess where
  kind : AccessKind
  address : Nat
deriving DecidableEq, Repr

/-- Configuration (src/cache.rs `CacheConfig`). -/
structure CacheConfig where
  cache_size : Nat
  block_size : Nat
  associativity : Nat
  victim_cache_entries : Nat
  prediction : PredictionStrategy
deriving DecidableEq, Repr

/-- `CacheConfig::num_sets`. -/
def CacheConfig.num_sets (c : CacheConfig) : Nat :=
  let blocks := max (c.cache_size / c.block_size) 1
  let ways := max c.associativity 1
  max (blocks / ways) 1

/-- Per-run prediction statistics (src/cache.rs `PredictionStats`). -/
structure PredictionStats where
  mode : PredictionStrategy
  first_hits : Nat
  non_first_hits : Nat
  total_hits_observed : Nat
  bit_vector_search_total : Nat
  bit_vector_observations : Nat
deriving DecidableEq, Repr

/-- `PredictionStats::new`. -/
def PredictionStats.new (mode : PredictionStrategy) : PredictionStats :=
  { mode := mode
    first_hits := 0
    non_first_hits := 0
    total_hits_observed := 0
    bit_vector_search_total := 0
    bit_vector_observations := 0 }

/-- `PredictionStats::first_hit_rate` (f64 modelled as an exact rational). -/
def PredictionStats.first_hit_rate (s : PredictionStats) : ℚ :=
  if s.total_hits_observed = 0 then 0
  else (s.first_hits : ℚ) / (s.total_hits_observed : ℚ)

/-- `PredictionStats::non_first_hit_rate`. -/
def PredictionStats.non_first_hit_rate (s : PredictionStats) : ℚ :=
  if s.total_hits_observed = 0 then 0
  else (s.non_first_hits : ℚ) / (s.total_hits_observed : ℚ)

/-- `PredictionStats::avg_bit_vector_search`. -/
def PredictionStats.avg_bit_vector_search (s : PredictionStats) : ℚ :=
  if s.bit_vector_observations = 0 then 0
  else (s.bit_vector_search_total : ℚ) / (s.bit_vector_observations : ℚ)

/-- Per-run statistics (src/cache.rs `CacheStats`). -/
structure CacheStats where
  accesses : Nat
  reads : Nat
  writes : Nat
  hits : Nat
  misses : Nat
  victim_hits : Nat
  prediction : Option PredictionStats
deriving DecidableEq, Repr

/-- `CacheStats::new`. -/
def CacheStats.new (prediction : PredictionStrategy) : CacheStats :=
  { accesses := 0
    reads := 0
    writes := 0
    hits := 0
    misses := 0
    victim_hits := 0
    prediction :=
      match prediction with
      | PredictionStrategy.none => Option.none
      | mode => some (PredictionStats.new mode) }

/-- `CacheStats::hit_rate`. -/
def CacheStats.hit_rate (s : CacheStats) : ℚ :=
  if s.accesses = 0 then 0 else (s.hits : ℚ) / (s.accesses : ℚ)

/-- `CacheStats::victim_hit_ratio`. -/
def CacheStats.victim_hit_ratio (s : CacheStats) : ℚ :=
  if s.hits = 0 then 0 else (s.victim_hits : ℚ) / (s.hits : ℚ)

/-- One resident line's metadata (src/cache.rs `CacheLine`). -/
structure CacheLine where
  tag : Nat
  block_address : Nat
  stamp : Nat
  has_received_hit : Bool
deriving DecidableEq, Repr

/-- `CacheLine::new`. -/
def CacheLine.new (tag block_address stamp : Nat) : CacheLine :=
  { tag := tag, block_address := block_address, stamp := stamp, has_received_hit := false }

/-- `u32::count_ones` for values below `2 ^ 32`. -/
def count_ones32 (n : Nat) : Nat :=
  ((List.range 32).filter (fun i => n.testBit i)).length

/-- Multi-column way predictor (src/cache.rs `MultiColumnPredictor`). -/
structure MultiColumnPredictor where
  bits : List Nat
  sets : Nat
  columns : Nat
deriving DecidableEq, Repr

/-- `MultiColumnPredictor::new`; `clamp(1, ways.max(1))` is `min (max base 1) (max ways 1)`. -/
def MultiColumnPredictor.new (num_sets ways : Nat) : MultiColumnPredictor :=
  let base := if ways ≤ 1 then 1 else if ways ≤ 4 then 2 else if ways ≤ 8 then 4 else 8
  let columns := min (max base 1) (max ways 1)
  { bits := List.replicate (num_sets * columns) 0
    sets := num_sets
    columns := columns }

/-- `MultiColumnPredictor::column`. -/
def MultiColumnPredictor.column (p : MultiColumnPredictor) (block_address : Nat) : Nat :=
  if p.columns = 1 then 0 else (block_address / p.sets) % p.columns

/-- `MultiColumnPredictor::index`. -/
def MultiColumnPredictor.index (p : MultiColumnPredictor) (set_index column : Nat) : Nat :=
  set_index * p.columns + column

/-- `MultiColumnPredictor::observe`. -/
def MultiColumnPredictor.observe (p : MultiColumnPredictor) (set_index block_address : Nat) : Nat :=
  p.bits.getD (p.index set_index (p.column block_address)) 0

/-- `MultiColumnPredictor::mark`. -/
def MultiColumnPredictor.mark (p : MultiColumnPredictor) (set_index block_address way : Nat) :
    MultiColumnPredictor :=
  if 32 ≤ way then p
  else
    let idx := p.index set_index (p.column block_address)
    { p with bits := p.bits.set idx (p.bits.getD idx 0 ||| (1 <<< way)) }

/-- `MultiColumnPredictor::clear`; `!(1u32 << way)` is xor with the all-ones u32 mask. -/
def MultiColumnPredictor.clear (p : MultiColumnPredictor) (set_index block_address way : Nat) :
    MultiColumnPredictor :=
  if 32 ≤ way then p
  else
    let idx := p.index set_index (p.column block_address)
    { p with bits := p.bits.set idx (p.bits.getD idx 0 &&& ((2 ^ 32 - 1) ^^^ (1 <<< way))) }

/-- Pre-mutation predictor observation (src/cache.rs `PredictionObservation`). -/
inductive PredictionObservation where
  | none
  | mru (predicted : Option Nat)
  | multiColumn (bits : Nat)
deriving DecidableEq, Repr

/-- `Vec::remove` at the first position whose entry matches `block_address`
(src/cache.rs `VictimBuffer::take`, the `position` + `remove` pair). -/
def takeFirst (block_address : Nat) : List CacheLine → Option (CacheLine × List CacheLine)
  | [] => Option.none
  | l :: rest =>
    if l.block_address = block_address then some (l, rest)
    else
      match takeFirst block_address rest with
      | some (x, rest2) => some (x, l :: rest2)
      | Option.none => Option.none

/-- Index of the first minimum of a list of Nat keys: Rust's
`min_by_key` returns the first element among equal minima. -/
def firstMinIdxNat : List Nat → Nat
  | [] => 0
  | [_] => 0
  | x :: y :: rest =>
    let j := firstMinIdxNat (y :: rest)
    if (y :: rest).getD j 0 < x then j + 1 else 0

/-- Strict lexicographic order on `(is_hot, stamp, way)` triples, as Rust's
`Ord` on 3-tuples compares them. -/
def lex3Lt (a b : Nat × Nat × Nat) : Bool :=
  decide (a.1 < b.1 ∨ (a.1 = b.1 ∧ (a.2.1 < b.2.1 ∨ (a.2.1 = b.2.1 ∧ a.2.2 < b.2.2))))

/-- Index of the first lexicographic minimum: Rust's `Iterator::min` returns
the first element among equal minima. -/
def firstMinIdxLex : List (Nat × Nat × Nat) → Nat
  | [] => 0
  | [_] => 0
  | x :: y :: rest =>
    let j := firstMinIdxLex (y :: rest)
    if lex3Lt ((y :: rest).getD j (0, 0, 0)) x then j + 1 else 0

/-- Bounded victim buffer (src/cache.rs `VictimBuffer`). -/
structure VictimBuffer where
  entries : List CacheLine
  capacity : Nat
deriving DecidableEq, Repr

/-- `VictimBuffer::new`. -/
def VictimBuffer.new (capacity : Nat) : VictimBuffer :=
  { entries := [], capacity := capacity }

/-- `VictimBuffer::take`. -/
def VictimBuffer.take (v : VictimBuffer) (block_address : Nat) :
    Option CacheLine × VictimBuffer :=
  if v.capacity = 0 then (Option.none, v)
  else
    match takeFirst block_address v.entries with
    | some (line, rest) => (some line, { v with entries := rest })
    | Option.none => (Option.none, v)

/-- `VictimBuffer::insert`; when full, the first entry with minimal stamp is
removed before pushing. -/
def VictimBuffer.insert (v : VictimBuffer) (line : CacheLine) (stamp : Nat) : VictimBuffer :=
  if v.capacity = 0 then v
  else
    let line2 := { line with stamp := stamp }
    let entries :=
      if v.entries.length = v.capacity then
        v.entries.eraseIdx (firstMinIdxNat (v.entries.map CacheLine.stamp))
      else v.entries
    { v with entries := entries ++ [line2] }

/-- Simulated cache (src/cache.rs `Cache`). -/
structure Cache where
  config : CacheConfig
  sets : List (List (Option CacheLine))
  victim : Option VictimBuffer
  prediction_mode : PredictionStrategy
  multi_predictor : Option MultiColumnPredictor
  next_stamp : Nat
  num_sets : Nat
deriving DecidableEq, Repr

/-- Normalized way count, `config.associativity.max(1)`. -/
def waysOf (c : CacheConfig) : Nat := max c.associativity 1

/-- `Cache::new`. -/
def Cache.new (config : CacheConfig) : Cache :=
  let num_sets := config.num_sets
  let ways := waysOf config
  { config := config
    sets := List.replicate num_sets (List.replicate ways (Option.none : Option CacheLine))
    victim :=
      if 0 < config.victim_cache_entries then some (VictimBuffer.new config.victim_cache_entries)
      else Option.none
    prediction_mode := config.prediction
    multi_predictor :=
      match config.prediction with
      | PredictionStrategy.multiColumn => some (MultiColumnPredictor.new num_sets ways)
      | _ => Option.none
    next_stamp := 1
    num_sets := num_sets }

/-- `Cache::mru_way`: `max_by_key` over valid lines' stamps; Rust's
`max_by_key` returns the last element among equal maxima. -/
def mruWayAux : List (Option CacheLine) → Nat → Option (Nat × Nat) → Option Nat
  | [], _, best => best.map Prod.fst
  | slot :: rest, i, best =>
    let best2 :=
      match slot with
      | some line =>
        match best with
        | some (bi, bs) => if bs ≤ line.stamp then some (i, line.stamp) else some (bi, bs)
        | Option.none => some (i, line.stamp)
      | Option.none => best
    mruWayAux rest (i + 1) best2

/-- `Cache::mru_way`. -/
def Cache.mru_way (c : Cache) (set_index : Nat) : Option Nat :=
  mruWayAux (c.sets.getD set_index []) 0 Option.none

/-- `Cache::observe_prediction`. -/
def Cache.observe_prediction (c : Cache) (set_index block_address : Nat) :
    PredictionObservation :=
  match c.prediction_mode with
  | PredictionStrategy.none => PredictionObservation.none
  | PredictionStrategy.mru => PredictionObservation.mru (c.mru_way set_index)
  | PredictionStrategy.multiColumn =>
    PredictionObservation.multiColumn
      (match c.multi_predictor with
       | some mc => mc.observe set_index block_address
       | Option.none => 0)

/-- `Cache::record_prediction`.  The u32 shift `1u32 << actual_way` wraps its
shift amount at 32 (release semantics); all call sites have `actual_way < 32`
in every configuration with at most 32 ways. -/
def record_prediction (observation : PredictionObservation) (actual : Option (Nat × Bool))
    (stats : CacheStats) : CacheStats :=
  match stats.prediction with
  | Option.none => stats
  | some ps =>
    match actual with
    | Option.none => stats
    | some (actual_way, is_first_hit) =>
      let ps := { ps with total_hits_observed := ps.total_hits_observed + 1 }
      let ps :=
        if is_first_hit then { ps with first_hits := ps.first_hits + 1 }
        else { ps with non_first_hits := ps.non_first_hits + 1 }
      let ps :=
        match observation with
        | PredictionObservation.none => ps
        | PredictionObservation.mru _ => ps
        | PredictionObservation.multiColumn bits =>
          if bits = 0 then
            { ps with bit_vector_observations := ps.bit_vector_observations + 1 }
          else
            let mask := 1 <<< (actual_way % 32)
            let ps :=
              if bits &&& mask ≠ 0 then
                { ps with bit_vector_search_total :=
                    ps.bit_vector_search_total + (count_ones32 (bits &&& (mask - 1)) + 1) }
              else
                { ps with bit_vector_search_total :=
                    ps.bit_vector_search_total + count_ones32 bits }
            { ps with bit_vector_observations := ps.bit_vector_observations + 1 }
      { stats with prediction := some ps }

/-- The loop body of `Cache::touch_if_hit`: find the first resident line with
the given tag, mark it hit, refresh its stamp, and report
`(updated set, way, is_first_hit)`.  `is_first_hit` is `mark_hit`'s return:
true iff the line had not been hit since installation. -/
def touchAux (tag stamp : Nat) :
    List (Option CacheLine) → Option (List (Option CacheLine) × Nat × Bool)
  | [] => Option.none
  | slot :: rest =>
    match slot with
    | some line =>
      if line.tag = tag then
        some (some { line with has_received_hit := true, stamp := stamp } :: rest,
          0, !line.has_received_hit)
      else
        match touchAux tag stamp rest with
        | some (rest2, way, b) => some (slot :: rest2, way + 1, b)
        | Option.none => Option.none
    | Option.none =>
      match touchAux tag stamp rest with
      | some (rest2, way, b) => some (slot :: rest2, way + 1, b)
      | Option.none => Option.none

/-- `Cache::touch_if_hit`. -/
def Cache.touch_if_hit (c : Cache) (set_index tag : Nat) : Option (Cache × Nat × Bool) :=
  match touchAux tag c.next_stamp (c.sets.getD set_index []) with
  | some (set2, way, b) => some ({ c with sets := c.sets.set set_index set2 }, way, b)
  | Option.none => Option.none

/-- Index of the first empty slot, `iter().enumerate().find(|slot| slot.is_none())`. -/
def firstNoneIdx : List (Option CacheLine) → Option Nat
  | [] => Option.none
  | Option.none :: _ => some 0
  | some _ :: rest => (firstNoneIdx rest).map (· + 1)

/-- Recency-stamp key used by victim selection; an empty slot keys as
`u64::MIN` (never the case at call sites, where the set is full). -/
def stampKey (slot : Option CacheLine) : Nat :=
  match slot with
  | some line => line.stamp
  | Option.none => 0

/-- `Cache::find_victim_index`.  In the MultiColumn arm, an empty slot would
make the Rust `unwrap` panic; the call site guarantees a full set, and the
model keys such a slot as `(0, 0, way)`. -/
def find_victim_index (mode : PredictionStrategy) (mp : Option MultiColumnPredictor)
    (set_index : Nat) (set : List (Option CacheLine)) : Nat :=
  match mode with
  | PredictionStrategy.mru => firstMinIdxNat (set.map stampKey)
  | PredictionStrategy.multiColumn =>
    let predictor := mp.getD (MultiColumnPredictor.new 0 0)
    let keys := set.enum.map (fun p =>
      match p.2 with
      | some line =>
        let bits := predictor.observe set_index line.block_address
        ((bits >>> p.1) &&& 1, line.stamp, p.1)
      | Option.none => (0, 0, p.1))
    firstMinIdxLex keys
  | PredictionStrategy.none => firstMinIdxNat (set.map stampKey)

/-- `Cache::install_line`.  The final `replace(..).unwrap()` cannot see an
empty slot (the first branch caught those); the model then reports no
eviction on that unreachable path. -/
def Cache.install_line (c : Cache) (set_index : Nat) (line : CacheLine) :
    Cache × Nat × Option (CacheLine × Nat) :=
  let set := c.sets.getD set_index []
  match firstNoneIdx set with
  | some idx =>
    let line2 := { line with stamp := c.next_stamp }
    ({ c with sets := c.sets.set set_index (set.set idx (some line2)) }, idx, Option.none)
  | Option.none =>
    let idx := find_victim_index c.prediction_mode c.multi_predictor set_index set
    let line2 :=
      if c.prediction_mode = PredictionStrategy.mru then
        match set.getD idx Option.none with
        | some victim => { line with stamp := victim.stamp }
        | Option.none => line
      else line
    match set.getD idx Option.none with
    | some evicted =>
      ({ c with sets := c.sets.set set_index (set.set idx (some line2)) }, idx,
        some (evicted, idx))
    | Option.none =>
      ({ c with sets := c.sets.set set_index (set.set idx (some line2)) }, idx, Option.none)

/-- `Cache::update_multi_column_on_hit`. -/
def Cache.update_multi_column_on_hit (c : Cache) (set_index block_address way : Nat) : Cache :=
  match c.multi_predictor with
  | some p => { c with multi_predictor := some (p.mark set_index block_address way) }
  | Option.none => c

/-- `Cache::multi_column_on_evict`. -/
def Cache.multi_column_on_evict (c : Cache) (set_index : Nat) (line : CacheLine) (way : Nat) :
    Cache :=
  match c.multi_predictor with
  | some p => { c with multi_predictor := some (p.clear set_index line.block_address way) }
  | Option.none => c

/-- The `if let Some(victim) = self.victim.as_mut() { victim.insert(..) }` step. -/
def Cache.victim_insert (c : Cache) (line : CacheLine) : Cache :=
  match c.victim with
  | some v => { c with victim := some (v.insert line c.next_stamp) }
  | Option.none => c

/-- The `sets[set_index].get_mut(way) ... line.mark_hit()` step of the
victim-recovery path (the returned flag is discarded there). -/
def Cache.mark_hit_at (c : Cache) (set_index way : Nat) : Cache :=
  let set := c.sets.getD set_index []
  match set.getD way Option.none with
  | some line =>
    { c with sets := c.sets.set set_index (set.set way (some { line with has_received_hit := true })) }
  | Option.none => c

/-- Address decomposition used at the top of `Cache::process_access`:
`(block_address, set_index, tag)`. -/
def Cache.decompose (c : Cache) (address : Nat) : Nat × Nat × Nat :=
  let block_address := address / c.config.block_size
  (block_address, block_address % c.num_sets, block_address / c.num_sets)

/-- The `self.victim.as_mut().and_then(|victim| victim.take(block_address))`
step of `Cache::process_access`, threading the mutated buffer. -/
def Cache.victim_take (c : Cache) (block_address : Nat) : Option CacheLine × Cache :=
  match c.victim with
  | some v =>
    let tv := v.take block_address
    (tv.1, { c with victim := some tv.2 })
  | Option.none => (Option.none, c)

/-- The `if let Some((evicted_line, evicted_way)) = evicted { .. }` block of
`Cache::process_access`: clear the predictor for the evicted way, then offer
the evicted line to the victim buffer. -/
def Cache.handle_eviction (c : Cache) (set_index : Nat)
    (evicted : Option (CacheLine × Nat)) : Cache :=
  match evicted with
  | some ev => (c.multi_column_on_evict set_index ev.1 ev.2).victim_insert ev.1
  | Option.none => c

/-- `Cache::process_access`. -/
def Cache.process_access (c : Cache) (access : TraceAccess) (stats : CacheStats) :
    Cache × CacheStats :=
  let stats := { stats with accesses := stats.accesses + 1 }
  let stats :=
    match access.kind with
    | AccessKind.read => { stats with reads := stats.reads + 1 }
    | AccessKind.write => { stats with writes := stats.writes + 1 }
  let block_address := (c.decompose access.address).1
  let set_index := (c.decompose access.address).2.1
  let tag := (c.decompose access.address).2.2
  let observation := c.observe_prediction set_index block_address
  match c.touch_if_hit set_index tag with
  | some (c2, way, is_first_hit) =>
    let stats := { stats with hits := stats.hits + 1 }
    let c3 := c2.update_multi_column_on_hit set_index block_address way
    let stats := record_prediction observation (some (way, is_first_hit)) stats
    ({ c3 with next_stamp := c3.next_stamp + 1 }, stats)
  | Option.none =>
    let taken := c.victim_take block_address
    match taken.1 with
    | some line =>
      let line := { line with stamp := taken.2.next_stamp }
      let inst := taken.2.install_line set_index line
      let c4 := Cache.handle_eviction inst.1 set_index inst.2.2
      let c5 := c4.mark_hit_at set_index inst.2.1
      let c6 := c5.update_multi_column_on_hit set_index block_address inst.2.1
      let stats := { stats with hits := stats.hits + 1, victim_hits := stats.victim_hits + 1 }
      ({ c6 with next_stamp := c6.next_stamp + 1 }, stats)
    | Option.none =>
      let line := CacheLine.new tag block_address taken.2.next_stamp
      let inst := taken.2.install_line set_index line
      let c4 := Cache.handle_eviction inst.1 set_index inst.2.2
      let stats := { stats with misses := stats.misses + 1 }
      ({ c4 with next_stamp := c4.next_stamp + 1 }, stats)

/-- Folding `process_access` over a trace, threading cache and stats. -/
def Cache.run_state (c : Cache) (stats : CacheStats) : List TraceAccess → Cache × CacheStats
  | [] => (c, stats)
  | a :: rest =>
    let step := c.process_access a stats
    Cache.run_state step.1 step.2 rest

/-- `Cache::run_trace`. -/
def Cache.run_trace (c : Cache) (trace : List TraceAccess) : CacheStats :=
  (c.run_state (CacheStats.new c.prediction_mode) trace).2

/-- The spec's formula for the set count:
`num_sets = max(1, floor(cache_size / block_size) / max(1, associativity))`. -/
def num_sets_spec (cfg : CacheConfig) : Nat :=
  max 1 ((cfg.cache_size / cfg.block_size) / max 1 cfg.associativity)

/-- 1-way, 1-set cache with a 1-entry victim buffer (`cache_size = block_size`). -/
def cfgC5 : CacheConfig :=
  { cache_size := 1, block_size := 1, associativity := 1, victim_cache_entries := 1,
    prediction := PredictionStrategy.none }

/-- Block-address trace `0, 1, 0` with `block_size = 1`. -/
def traceC5 : List TraceAccess :=
  [⟨AccessKind.read, 0⟩, ⟨AccessKind.read, 1⟩, ⟨AccessKind.read, 0⟩]

/-- 1-way, 1-set cache under the Mru strategy. -/
def cfgC2 : CacheConfig :=
  { cache_size := 1, block_size := 1, associativity := 1, victim_cache_entries := 0,
    prediction := PredictionStrategy.mru }

/-- 2-way, 1-set cache under the MultiColumn strategy. -/
def cfgC3 : CacheConfig :=
  { cache_size := 2, block_size := 1, associativity := 2, victim_cache_entries := 0,
    prediction := PredictionStrategy.multiColumn }

/-- Default-like configuration used as a concrete instantiation point. -/
def cfgC7 : CacheConfig :=
  { cache_size := 1024, block_size := 32, associativity := 4, victim_cache_entries := 2,
    prediction := PredictionStrategy.none }

/-- 2-way, 1-set configuration under the None policy. -/
def cfgC4 : CacheConfig :=
  { cache_size := 2, block_size := 1, associativity := 2, victim_cache_entries := 0,
    prediction := PredictionStrategy.none }

/-- A full 2-way, 1-set cache under the None policy, next tick 7. -/
def cacheC4 : Cache :=
  { config := cfgC4
    sets := [[some { tag := 1, block_address := 1, stamp := 5, has_received_hit := false },
      some { tag := 2, block_address := 2, stamp := 3, has_received_hit := false }]]
    victim := Option.none
    prediction_mode := PredictionStrategy.none
    multi_predictor := Option.none
    next_stamp := 7
    num_sets := 1 }

/-- The block-address trace `0, 0`: install then first hit. -/
def traceC2 : List TraceAccess := [⟨AccessKind.read, 0⟩, ⟨AccessKind.read, 0⟩]

/-- Engine state after running `traceC2` on a fresh Mru cache. -/
def cacheC2state : Cache :=
  ((Cache.new cfgC2).run_state (CacheStats.new PredictionStrategy.mru) traceC2).1

/-- Statistics after running `traceC2` on a fresh Mru cache. -/
def statsC2state : CacheStats :=
  ((Cache.new cfgC2).run_state (CacheStats.new PredictionStrategy.mru) traceC2).2

/-- Prediction statistics after `traceC2`: one hit, classified first. -/
def psC2 : PredictionStats :=
  { mode := PredictionStrategy.mru, first_hits := 1, non_first_hits := 0,
    total_hits_observed := 1, bit_vector_search_total := 0, bit_vector_observations := 0 }

/-- A concrete MultiColumn predictor state with bit 0 of `bits[0,0]` set. -/
def mpC6 : MultiColumnPredictor :=
  { bits := [1, 0], sets := 1, columns := 2 }

/-- A concrete 2-way, 1-set MultiColumn cache holding block 0 in way 0. -/
def cacheC6 : Cache :=
  { config := cfgC3
    sets := [[some { tag := 0, block_address := 0, stamp := 1, has_received_hit := false },
      Option.none]]
    victim := Option.none
    prediction_mode := PredictionStrategy.multiColumn
    multi_predictor := some mpC6
    next_stamp := 2
    num_sets := 1 }

/-- `total_hits_observed = first_hits + non_first_hits` on the optional
prediction record. -/
def PredInv (s : CacheStats) : Prop :=
  ∀ ps, s.prediction = some ps →
    ps.total_hits_observed = ps.first_hits + ps.non_first_hits

/-- Engine state after a single plain miss on a fresh MultiColumn cache. -/
def cacheC3state : Cache :=
  ((Cache.new cfgC3).run_state (CacheStats.new PredictionStrategy.multiColumn)
    [⟨AccessKind.read, 0⟩]).1

/-- Engine state after the block-address trace `0, 0` on a fresh MultiColumn
cache: a plain miss followed by a primary hit. -/
def cacheC3state2 : Cache :=
  ((Cache.new cfgC3).run_state (CacheStats.new PredictionStrategy.multiColumn)
    [⟨AccessKind.read, 0⟩, ⟨AccessKind.read, 0⟩]).1

/-- The multi-column bit-table invariant (amended), with the shape facts
needed to maintain it: bit `w` of `bits[s, col]` is set iff the line
currently resident in way `w` of set `s` belongs to column `col` and has
been marked — hit, or installed from the victim buffer — since it was
installed into that way. -/
structure MCInv (c : Cache) : Prop where
  sets_len : c.sets.length = c.num_sets
  nsets_pos : 0 < c.num_sets
  ways_pos : ∀ s, s < c.num_sets → c.sets.getD s [] ≠ []
  mp_some : ∃ mp, c.multi_predictor = some mp
  shape : ∀ mp, c.multi_predictor = some mp →
    mp.sets = c.num_sets ∧ 0 < mp.columns ∧ mp.bits.length = c.num_sets * mp.columns
  line_tag : ∀ s w line, (c.sets.getD s []).getD w Option.none = some line →
    line.block_address / c.num_sets = line.tag
  victim_tag : ∀ v, c.victim = some v → ∀ line, line ∈ v.entries →
    line.block_address / c.num_sets = line.tag
  bits_iff : ∀ mp, c.multi_predictor = some mp →
    ∀ s col w, s < c.num_sets → col < mp.columns → w < 32 →
      ((mp.bits.getD (mp.index s col) 0).testBit w = true ↔
        ∃ line, (c.sets.getD s []).getD w Option.none = some line ∧
          mp.column line.block_address = col ∧ line.has_received_hit = true)

end CacheEmu

namespace CacheEmu

theorem max_div_max_eq (b w : Nat) :
    max (max b 1 / w) 1 = max 1 (b / w) := by
  rcases Nat.eq_zero_or_pos b with hb | hb
  · subst hb
    have h1 : 1 / w ≤ 1 := Nat.div_le_self 1 w
    have h0 : max 0 1 = 1 := rfl
    rw [h0, Nat.zero_div]
    generalize 1 / w = q at h1 ⊢
    omega
  · have h0 : max b 1 = b := by omega
    rw [h0, max_comm]

theorem num_sets_eq_spec (cfg : CacheConfig) : cfg.num_sets = num_sets_spec cfg := by
  simp only [CacheConfig.num_sets, num_sets_spec]
  rw [max_comm cfg.associativity 1]
  exact max_div_max_eq _ _

theorem num_sets_pos (cfg : CacheConfig) : 1 ≤ cfg.num_sets := by
  simp only [CacheConfig.num_sets]
  exact Nat.le_max_right _ _

theorem waysOf_pos (cfg : CacheConfig) : 1 ≤ waysOf cfg :=
  Nat.le_max_right _ _

/-- C7: for every access with positive `block_size`, the engine decomposes the
byte address as `block_address = address / block_size`,
`set_index = block_address mod num_sets`, `tag = block_address / num_sets`,
with `num_sets = max(1, floor(cache_size / block_size) / max(1, associativity))`;
degenerate configurations are normalized to at least one set and one way. -/
theorem C7_address_decomposition (cfg : CacheConfig) (address : Nat)
    (h : 0 < cfg.block_size) :
    cfg.num_sets = num_sets_spec cfg ∧
    1 ≤ cfg.num_sets ∧ 1 ≤ waysOf cfg ∧
    (Cache.new cfg).decompose address =
      (address / cfg.block_size,
        (address / cfg.block_size) % num_sets_spec cfg,
        (address / cfg.block_size) / num_sets_spec cfg) := by
  refine ⟨num_sets_eq_spec cfg, num_sets_pos cfg, waysOf_pos cfg, ?_⟩
  simp [Cache.decompose, Cache.new, num_sets_eq_spec]

/-- Witness for C7 at a concrete configuration and address. -/
theorem C7_address_decomposition_witness :
    cfgC7.num_sets = num_sets_spec cfgC7 ∧
    1 ≤ cfgC7.num_sets ∧ 1 ≤ waysOf cfgC7 ∧
    (Cache.new cfgC7).decompose 777 =
      (777 / cfgC7.block_size,
        (777 / cfgC7.block_size) % num_sets_spec cfgC7,
        (777 / cfgC7.block_size) / num_sets_spec cfgC7) :=
  C7_address_decomposition cfgC7 777 (by decide)

/-- C9: the engine is a pure function of (configuration, trace): two runs,
each on a freshly constructed cache from the same configuration, produce
statistics that agree in every field. -/
theorem C9_determinism (cfg : CacheConfig) (trace : List TraceAccess) :
    ((Cache.new cfg).run_trace trace).accesses = ((Cache.new cfg).run_trace trace).accesses ∧
    ((Cache.new cfg).run_trace trace).reads = ((Cache.new cfg).run_trace trace).reads ∧
    ((Cache.new cfg).run_trace trace).writes = ((Cache.new cfg).run_trace trace).writes ∧
    ((Cache.new cfg).run_trace trace).hits = ((Cache.new cfg).run_trace trace).hits ∧
    ((Cache.new cfg).run_trace trace).misses = ((Cache.new cfg).run_trace trace).misses ∧
    ((Cache.new cfg).run_trace trace).victim_hits =
      ((Cache.new cfg).run_trace trace).victim_hits ∧
    ((Cache.new cfg).run_trace trace).prediction =
      ((Cache.new cfg).run_trace trace).prediction :=
  ⟨rfl, rfl, rfl, rfl, rfl, rfl, rfl⟩

/-- C5: with `associativity = 1`, `victim_entries = 1` and a single set, the
block-address trace `0, 1, 0` yields `accesses = 3`, `hits = 1`,
`victim_hits = 1`, `misses = 2`: the third access is recovered from the
victim buffer and counted both as an overall hit and as a victim hit. -/
theorem C5_victim_buffer_recall :
    (Cache.new cfgC5).run_trace traceC5 =
      { accesses := 3, reads := 3, writes := 0, hits := 1, misses := 2, victim_hits := 1,
        prediction := Option.none } := by
  decide

/-- C8: every derived-rate accessor guards its division by zero and returns 0
instead of erroring, and on an empty trace `hit_rate` and `victim_hit_ratio`
are 0.  (f64 arithmetic is modelled by exact rationals; the property at issue
is the zero-denominator guard.) -/
theorem C8_rate_guards (s : CacheStats) (ps : PredictionStats) (cfg : CacheConfig) :
    (s.accesses = 0 → s.hit_rate = 0) ∧
    (s.accesses ≠ 0 → s.hit_rate = (s.hits : ℚ) / (s.accesses : ℚ)) ∧
    (s.hits = 0 → CacheStats.victim_hit_ratio s = 0) ∧
    (s.hits ≠ 0 → CacheStats.victim_hit_ratio s = (s.victim_hits : ℚ) / (s.hits : ℚ)) ∧
    (ps.total_hits_observed = 0 → ps.first_hit_rate = 0 ∧ ps.non_first_hit_rate = 0) ∧
    (ps.total_hits_observed ≠ 0 →
      ps.first_hit_rate = (ps.first_hits : ℚ) / (ps.total_hits_observed : ℚ) ∧
      ps.non_first_hit_rate = (ps.non_first_hits : ℚ) / (ps.total_hits_observed : ℚ)) ∧
    (ps.bit_vector_observations = 0 → ps.avg_bit_vector_search = 0) ∧
    (ps.bit_vector_observations ≠ 0 →
      ps.avg_bit_vector_search =
        (ps.bit_vector_search_total : ℚ) / (ps.bit_vector_observations : ℚ)) ∧
    ((Cache.new cfg).run_trace []).accesses = 0 ∧
    ((Cache.new cfg).run_trace []).hit_rate = 0 ∧
    CacheStats.victim_hit_ratio ((Cache.new cfg).run_trace []) = 0 := by
  refine ⟨?_, ?_, ?_, ?_, ?_, ?_, ?_, ?_, ?_, ?_, ?_⟩ <;>
    simp +contextual [CacheStats.hit_rate, CacheStats.victim_hit_ratio,
      PredictionStats.first_hit_rate, PredictionStats.non_first_hit_rate,
      PredictionStats.avg_bit_vector_search, Cache.run_trace, Cache.run_state,
      CacheStats.new]

/-- Witness for C8 at concrete statistics records with zero denominators. -/
theorem C8_rate_guards_witness :
    CacheStats.hit_rate (CacheStats.new PredictionStrategy.none) = 0 ∧
    CacheStats.victim_hit_ratio (CacheStats.new PredictionStrategy.none) = 0 ∧
    PredictionStats.first_hit_rate (PredictionStats.new PredictionStrategy.mru) = 0 ∧
    PredictionStats.avg_bit_vector_search (PredictionStats.new PredictionStrategy.mru) = 0 ∧
    ((Cache.new cfgC7).run_trace []).hit_rate = 0 :=
  ⟨(C8_rate_guards (CacheStats.new PredictionStrategy.none)
      (PredictionStats.new PredictionStrategy.mru) cfgC7).1 rfl,
   (C8_rate_guards (CacheStats.new PredictionStrategy.none)
      (PredictionStats.new PredictionStrategy.mru) cfgC7).2.2.1 rfl,
   ((C8_rate_guards (CacheStats.new PredictionStrategy.none)
      (PredictionStats.new PredictionStrategy.mru) cfgC7).2.2.2.2.1 rfl).1,
   (C8_rate_guards (CacheStats.new PredictionStrategy.none)
      (PredictionStats.new PredictionStrategy.mru) cfgC7).2.2.2.2.2.2.1 rfl,
   (C8_rate_guards (CacheStats.new PredictionStrategy.none)
      (PredictionStats.new PredictionStrategy.mru) cfgC7).2.2.2.2.2.2.2.2.2.1⟩

theorem process_access_hit_eq (c : Cache) (a : TraceAccess) (s : CacheStats)
    {c2 : Cache} {way : Nat} {b : Bool}
    (hhit : c.touch_if_hit (c.decompose a.address).2.1 (c.decompose a.address).2.2 =
      some (c2, way, b)) :
    c.process_access a s =
      (let c3 := c2.update_multi_column_on_hit (c.decompose a.address).2.1
        (c.decompose a.address).1 way
       ({ c3 with next_stamp := c3.next_stamp + 1 },
        record_prediction
          (c.observe_prediction (c.decompose a.address).2.1 (c.decompose a.address).1)
          (some (way, b))
          { s with
            accesses := s.accesses + 1
            reads := s.reads +
              (match a.kind with | AccessKind.read => 1 | AccessKind.write => 0)
            writes := s.writes +
              (match a.kind with | AccessKind.read => 0 | AccessKind.write => 1)
            hits := s.hits + 1 })) := by
  cases hk : a.kind <;> simp only [Cache.process_access, hhit, hk] <;> rfl

theorem process_access_vhit_eq (c : Cache) (a : TraceAccess) (s : CacheStats)
    {line : CacheLine} {c1 : Cache}
    (hmiss : c.touch_if_hit (c.decompose a.address).2.1 (c.decompose a.address).2.2 =
      Option.none)
    (hvt : c.victim_take (c.decompose a.address).1 = (some line, c1)) :
    c.process_access a s =
      (let inst := c1.install_line (c.decompose a.address).2.1
        { line with stamp := c1.next_stamp }
       let c4 := Cache.handle_eviction inst.1 (c.decompose a.address).2.1 inst.2.2
       let c5 := c4.mark_hit_at (c.decompose a.address).2.1 inst.2.1
       let c6 := c5.update_multi_column_on_hit (c.decompose a.address).2.1
         (c.decompose a.address).1 inst.2.1
       ({ c6 with next_stamp := c6.next_stamp + 1 },
        { s with
          accesses := s.accesses + 1
          reads := s.reads +
            (match a.kind with | AccessKind.read => 1 | AccessKind.write => 0)
          writes := s.writes +
            (match a.kind with | AccessKind.read => 0 | AccessKind.write => 1)
          hits := s.hits + 1
          victim_hits := s.victim_hits + 1 })) := by
  cases hk : a.kind <;> simp only [Cache.process_access, hmiss, hvt, hk] <;> rfl

theorem process_access_miss_eq (c : Cache) (a : TraceAccess) (s : CacheStats)
    {c1 : Cache}
    (hmiss : c.touch_if_hit (c.decompose a.address).2.1 (c.decompose a.address).2.2 =
      Option.none)
    (hvt : c.victim_take (c.decompose a.address).1 = (Option.none, c1)) :
    c.process_access a s =
      (let inst := c1.install_line (c.decompose a.address).2.1
        (CacheLine.new (c.decompose a.address).2.2 (c.decompose a.address).1 c1.next_stamp)
       let c4 := Cache.handle_eviction inst.1 (c.decompose a.address).2.1 inst.2.2
       ({ c4 with next_stamp := c4.next_stamp + 1 },
        { s with
          accesses := s.accesses + 1
          reads := s.reads +
            (match a.kind with | AccessKind.read => 1 | AccessKind.write => 0)
          writes := s.writes +
            (match a.kind with | AccessKind.read => 0 | AccessKind.write => 1)
          misses := s.misses + 1 })) := by
  cases hk : a.kind <;> simp only [Cache.process_access, hmiss, hvt, hk] <;> rfl

theorem record_prediction_mru (pred : Option Nat) (way : Nat) (b : Bool)
    (s : CacheStats) (ps : PredictionStats) (hps : s.prediction = some ps) :
    (record_prediction (PredictionObservation.mru pred) (some (way, b)) s).prediction =
      some { ps with
        total_hits_observed := ps.total_hits_observed + 1
        first_hits := ps.first_hits + (if b then 1 else 0)
        non_first_hits := ps.non_first_hits + (if b then 0 else 1) } := by
  cases b <;> simp [record_prediction, hps]

theorem record_prediction_multiColumn (bits way : Nat) (b : Bool)
    (s : CacheStats) (ps : PredictionStats) (hps : s.prediction = some ps)
    (hway : way < 32) :
    (record_prediction (PredictionObservation.multiColumn bits) (some (way, b)) s).prediction =
      some { ps with
        total_hits_observed := ps.total_hits_observed + 1
        first_hits := ps.first_hits + (if b then 1 else 0)
        non_first_hits := ps.non_first_hits + (if b then 0 else 1)
        bit_vector_observations := ps.bit_vector_observations + 1
        bit_vector_search_total := ps.bit_vector_search_total +
          (if bits = 0 then 0
           else if bits.testBit way then count_ones32 (bits % 2 ^ way) + 1
           else count_ones32 bits) } := by
  have hmask : (1 <<< (way % 32)) = 2 ^ way := by
    rw [Nat.mod_eq_of_lt hway, Nat.shiftLeft_eq, one_mul]
  by_cases h0 : bits = 0
  · cases b <;> simp [record_prediction, hps, h0]
  · by_cases htb : bits.testBit way
    · have h2 : (2 : Nat) ^ way ≠ 0 := by positivity
      have hand : bits &&& 2 ^ way ≠ 0 := by
        rw [Nat.and_two_pow, htb]
        simpa using h2
      cases b <;>
        simp [record_prediction, hps, h0, hand, hmask, htb, Nat.and_pow_two_sub_one_eq_mod]
    · have hand : bits &&& 2 ^ way = 0 := by
        rw [Nat.and_two_pow]
        simp [htb]
      cases b <;> simp [record_prediction, hps, h0, hand, hmask, htb]

theorem record_prediction_counters (o : PredictionObservation) (act : Option (Nat × Bool))
    (s : CacheStats) :
    (record_prediction o act s).accesses = s.accesses ∧
    (record_prediction o act s).reads = s.reads ∧
    (record_prediction o act s).writes = s.writes ∧
    (record_prediction o act s).hits = s.hits ∧
    (record_prediction o act s).misses = s.misses ∧
    (record_prediction o act s).victim_hits = s.victim_hits := by
  rcases hsp : s.prediction with _ | ps <;> rcases act with _ | ⟨way, b⟩ <;>
    simp [record_prediction, hsp]

theorem record_prediction_hit_counters (o : PredictionObservation) (way : Nat) (b : Bool)
    (s : CacheStats) (ps : PredictionStats) (hps : s.prediction = some ps) :
    Option.map PredictionStats.total_hits_observed
        (record_prediction o (some (way, b)) s).prediction
      = some (ps.total_hits_observed + 1) ∧
    Option.map PredictionStats.first_hits (record_prediction o (some (way, b)) s).prediction
      = some (ps.first_hits + (if b then 1 else 0)) ∧
    Option.map PredictionStats.non_first_hits
        (record_prediction o (some (way, b)) s).prediction
      = some (ps.non_first_hits + (if b then 0 else 1)) := by
  rcases o with _ | pred | bits <;> cases b <;>
    simp [record_prediction, hps] <;> try (split_ifs <;> simp)

theorem process_access_counts (c : Cache) (a : TraceAccess) (s : CacheStats) :
    (c.process_access a s).2.accesses = s.accesses + 1 ∧
    (c.process_access a s).2.reads + (c.process_access a s).2.writes
      = s.reads + s.writes + 1 ∧
    (c.process_access a s).2.hits + (c.process_access a s).2.misses
      = s.hits + s.misses + 1 := by
  rcases hhit : c.touch_if_hit (c.decompose a.address).2.1 (c.decompose a.address).2.2 with
    _ | ⟨c2, way, b⟩
  · rcases hvt : c.victim_take (c.decompose a.address).1 with ⟨_ | line, c1⟩
    · rw [process_access_miss_eq c a s hhit hvt]
      cases a.kind <;> simp <;> omega
    · rw [process_access_vhit_eq c a s hhit hvt]
      cases a.kind <;> simp <;> omega
  · rw [process_access_hit_eq c a s hhit]
    have h := record_prediction_counters
      (c.observe_prediction (c.decompose a.address).2.1 (c.decompose a.address).1)
      (some (way, b))
      { s with
        accesses := s.accesses + 1
        reads := s.reads + (match a.kind with | AccessKind.read => 1 | AccessKind.write => 0)
        writes := s.writes + (match a.kind with | AccessKind.read => 0 | AccessKind.write => 1)
        hits := s.hits + 1 }
    cases hk : a.kind <;> simp [hk] at h ⊢ <;> omega

theorem run_state_conservation (trace : List TraceAccess) :
    ∀ (c : Cache) (s : CacheStats),
      (Cache.run_state c s trace).2.accesses = s.accesses + trace.length ∧
      (Cache.run_state c s trace).2.reads + (Cache.run_state c s trace).2.writes
        = s.reads + s.writes + trace.length ∧
      (Cache.run_state c s trace).2.hits + (Cache.run_state c s trace).2.misses
        = s.hits + s.misses + trace.length := by
  induction trace with
  | nil => intro c s; simp [Cache.run_state]
  | cons a rest ih =>
    intro c s
    have h1 := process_access_counts c a s
    have h2 := ih (c.process_access a s).1 (c.process_access a s).2
    simp only [Cache.run_state, List.length_cons]
    omega

/-- C1: for every configuration with positive block size and every trace, the
statistics returned by `run_trace` satisfy `hits + misses = accesses` and
`reads + writes = accesses`: each access is counted exactly once as a read or
a write, and exactly once as a hit (primary or victim) or a miss. -/
theorem C1_conservation (cfg : CacheConfig) (trace : List TraceAccess)
    (h : 0 < cfg.block_size) :
    ((Cache.new cfg).run_trace trace).hits + ((Cache.new cfg).run_trace trace).misses
      = ((Cache.new cfg).run_trace trace).accesses ∧
    ((Cache.new cfg).run_trace trace).reads + ((Cache.new cfg).run_trace trace).writes
      = ((Cache.new cfg).run_trace trace).accesses := by
  have h2 := run_state_conservation trace (Cache.new cfg)
    (CacheStats.new (Cache.new cfg).prediction_mode)
  simp only [Cache.run_trace]
  have h0 : (CacheStats.new (Cache.new cfg).prediction_mode).accesses = 0 ∧
      (CacheStats.new (Cache.new cfg).prediction_mode).reads = 0 ∧
      (CacheStats.new (Cache.new cfg).prediction_mode).writes = 0 ∧
      (CacheStats.new (Cache.new cfg).prediction_mode).hits = 0 ∧
      (CacheStats.new (Cache.new cfg).prediction_mode).misses = 0 := by
    simp [CacheStats.new]
  omega

/-- Witness for C1 at a concrete configuration and trace. -/
theorem C1_conservation_witness :
    ((Cache.new cfgC5).run_trace traceC5).hits + ((Cache.new cfgC5).run_trace traceC5).misses
      = ((Cache.new cfgC5).run_trace traceC5).accesses ∧
    ((Cache.new cfgC5).run_trace traceC5).reads + ((Cache.new cfgC5).run_trace traceC5).writes
      = ((Cache.new cfgC5).run_trace traceC5).accesses :=
  C1_conservation cfgC5 traceC5 (by decide)

theorem process_access_miss_pred (c : Cache) (a : TraceAccess) (s : CacheStats)
    {c1 : Cache}
    (hmiss : c.touch_if_hit (c.decompose a.address).2.1 (c.decompose a.address).2.2 =
      Option.none)
    (hvt : c.victim_take (c.decompose a.address).1 = (Option.none, c1)) :
    (c.process_access a s).2.prediction = s.prediction := by
  rw [process_access_miss_eq c a s hmiss hvt]

theorem process_access_vhit_pred (c : Cache) (a : TraceAccess) (s : CacheStats)
    {line : CacheLine} {c1 : Cache}
    (hmiss : c.touch_if_hit (c.decompose a.address).2.1 (c.decompose a.address).2.2 =
      Option.none)
    (hvt : c.victim_take (c.decompose a.address).1 = (some line, c1)) :
    (c.process_access a s).2.prediction = s.prediction ∧
    (c.process_access a s).2.hits = s.hits + 1 ∧
    (c.process_access a s).2.victim_hits = s.victim_hits + 1 := by
  rw [process_access_vhit_eq c a s hmiss hvt]
  exact ⟨rfl, rfl, rfl⟩

theorem process_access_predInv (c : Cache) (a : TraceAccess) (s : CacheStats)
    (h : PredInv s) : PredInv (c.process_access a s).2 := by
  rcases hhit : c.touch_if_hit (c.decompose a.address).2.1 (c.decompose a.address).2.2 with
    _ | ⟨c2, way, b⟩
  · rcases hvt : c.victim_take (c.decompose a.address).1 with ⟨_ | line, c1⟩
    · rw [PredInv, process_access_miss_pred c a s hhit hvt]
      exact h
    · rw [PredInv, (process_access_vhit_pred c a s hhit hvt).1]
      exact h
  · intro ps2 hps2
    rw [process_access_hit_eq c a s hhit] at hps2
    rcases hsp : s.prediction with _ | ps
    · exfalso
      have hz : (record_prediction
          (c.observe_prediction (c.decompose a.address).2.1 (c.decompose a.address).1)
          (some (way, b))
          { s with
            accesses := s.accesses + 1
            reads := s.reads +
              (match a.kind with | AccessKind.read => 1 | AccessKind.write => 0)
            writes := s.writes +
              (match a.kind with | AccessKind.read => 0 | AccessKind.write => 1)
            hits := s.hits + 1 }).prediction = some ps2 := hps2
      rw [show (record_prediction
          (c.observe_prediction (c.decompose a.address).2.1 (c.decompose a.address).1)
          (some (way, b))
          { s with
            accesses := s.accesses + 1
            reads := s.reads +
              (match a.kind with | AccessKind.read => 1 | AccessKind.write => 0)
            writes := s.writes +
              (match a.kind with | AccessKind.read => 0 | AccessKind.write => 1)
            hits := s.hits + 1 }) = { s with
            accesses := s.accesses + 1
            reads := s.reads +
              (match a.kind with | AccessKind.read => 1 | AccessKind.write => 0)
            writes := s.writes +
              (match a.kind with | AccessKind.read => 0 | AccessKind.write => 1)
            hits := s.hits + 1 } from by simp [record_prediction, hsp]] at hz
      simp [hsp] at hz
    · have hcnt := record_prediction_hit_counters
        (c.observe_prediction (c.decompose a.address).2.1 (c.decompose a.address).1)
        way b
        { s with
          accesses := s.accesses + 1
          reads := s.reads +
            (match a.kind with | AccessKind.read => 1 | AccessKind.write => 0)
          writes := s.writes +
            (match a.kind with | AccessKind.read => 0 | AccessKind.write => 1)
          hits := s.hits + 1 }
        ps hsp
      have hps2a : (record_prediction
          (c.observe_prediction (c.decompose a.address).2.1 (c.decompose a.address).1)
          (some (way, b))
          { s with
            accesses := s.accesses + 1
            reads := s.reads +
              (match a.kind with | AccessKind.read => 1 | AccessKind.write => 0)
            writes := s.writes +
              (match a.kind with | AccessKind.read => 0 | AccessKind.write => 1)
            hits := s.hits + 1 }).prediction = some ps2 := hps2
      rw [hps2a] at hcnt
      simp only [Option.map_some'] at hcnt
      obtain ⟨h1, h2, h3⟩ := hcnt
      have ht := h ps hsp
      cases b <;> simp at h1 h2 h3 <;> omega

theorem run_state_predInv (trace : List TraceAccess) :
    ∀ (c : Cache) (s : CacheStats), PredInv s → PredInv (Cache.run_state c s trace).2 := by
  induction trace with
  | nil => intro c s h; simpa [Cache.run_state] using h
  | cons a rest ih =>
    intro c s h
    simp only [Cache.run_state]
    exact ih _ _ (process_access_predInv c a s h)

theorem predInv_new (mode : PredictionStrategy) : PredInv (CacheStats.new mode) := by
  intro ps hps
  rcases mode <;> simp [CacheStats.new, PredictionStats.new] at hps <;>
    simp [← hps, PredictionStats.new]

/-- C10: with prediction enabled, the final statistics of any run satisfy
`total_hits_observed = first_hits + non_first_hits` (and, the run being
arbitrary, this holds at every reachable point); a victim-buffer hit
increments `hits` and `victim_hits` but leaves the prediction statistics
unchanged, and a plain miss also leaves the prediction statistics unchanged:
those counters are updated only on primary-cache hits. -/
theorem C10_prediction_counters (cfg : CacheConfig) (trace : List TraceAccess)
    (c : Cache) (a : TraceAccess) (s : CacheStats) (line : CacheLine) (c1 c2 : Cache)
    (h : 0 < cfg.block_size) :
    Option.map PredictionStats.total_hits_observed
        ((Cache.new cfg).run_trace trace).prediction
      = Option.map (fun ps => ps.first_hits + ps.non_first_hits)
        ((Cache.new cfg).run_trace trace).prediction ∧
    (c.touch_if_hit (c.decompose a.address).2.1 (c.decompose a.address).2.2 = Option.none →
      c.victim_take (c.decompose a.address).1 = (some line, c1) →
      (c.process_access a s).2.prediction = s.prediction ∧
      (c.process_access a s).2.hits = s.hits + 1 ∧
      (c.process_access a s).2.victim_hits = s.victim_hits + 1) ∧
    (c.touch_if_hit (c.decompose a.address).2.1 (c.decompose a.address).2.2 = Option.none →
      c.victim_take (c.decompose a.address).1 = (Option.none, c2) →
      (c.process_access a s).2.prediction = s.prediction) := by
  refine ⟨?_, ?_, ?_⟩
  · have hinv := run_state_predInv trace (Cache.new cfg)
      (CacheStats.new (Cache.new cfg).prediction_mode)
      (predInv_new (Cache.new cfg).prediction_mode)
    rcases hp : ((Cache.new cfg).run_trace trace).prediction with _ | ps
    · rfl
    · simp only [Option.map_some']
      exact congrArg some (hinv ps hp)
  · intro hmiss hvt
    exact process_access_vhit_pred c a s hmiss hvt
  · intro hmiss hvt
    exact process_access_miss_pred c a s hmiss hvt

/-- Witness for C10 at a concrete configuration, trace and step inputs. -/
theorem C10_prediction_counters_witness :
    Option.map PredictionStats.total_hits_observed
        ((Cache.new cfgC2).run_trace traceC2).prediction
      = Option.map (fun ps => ps.first_hits + ps.non_first_hits)
        ((Cache.new cfgC2).run_trace traceC2).prediction ∧
    (cacheC2state.touch_if_hit (cacheC2state.decompose 0).2.1
        (cacheC2state.decompose 0).2.2 = Option.none →
      cacheC2state.victim_take (cacheC2state.decompose 0).1 =
        (some (CacheLine.new 0 0 0), cacheC2state) →
      (cacheC2state.process_access ⟨AccessKind.read, 0⟩ statsC2state).2.prediction
        = statsC2state.prediction ∧
      (cacheC2state.process_access ⟨AccessKind.read, 0⟩ statsC2state).2.hits
        = statsC2state.hits + 1 ∧
      (cacheC2state.process_access ⟨AccessKind.read, 0⟩ statsC2state).2.victim_hits
        = statsC2state.victim_hits + 1) ∧
    (cacheC2state.touch_if_hit (cacheC2state.decompose 0).2.1
        (cacheC2state.decompose 0).2.2 = Option.none →
      cacheC2state.victim_take (cacheC2state.decompose 0).1 =
        (Option.none, cacheC2state) →
      (cacheC2state.process_access ⟨AccessKind.read, 0⟩ statsC2state).2.prediction
        = statsC2state.prediction) :=
  C10_prediction_counters cfgC2 traceC2 cacheC2state ⟨AccessKind.read, 0⟩ statsC2state
    (CacheLine.new 0 0 0) cacheC2state cacheC2state (by decide)

/-- C6: under MultiColumn, on every primary-cache hit the engine takes the
pre-access snapshot of the addressed (set, column) bit vector; when it is
nonzero it adds `rank` to `bit_vector_search_total` — `rank = 1 + popcount`
of the snapshot bits strictly below the hit way when the hit way's bit is
set, else the popcount of the whole snapshot — and increments
`bit_vector_observations`; when the snapshot is zero it still increments
`bit_vector_observations` and leaves `bit_vector_search_total` unchanged. -/
theorem C6_multicolumn_search (c : Cache) (a : TraceAccess) (s : CacheStats)
    (mp : MultiColumnPredictor) (ps : PredictionStats)
    (hmode : c.prediction_mode = PredictionStrategy.multiColumn)
    (hmp : c.multi_predictor = some mp)
    (hps : s.prediction = some ps)
    (c2 : Cache) (way : Nat) (b : Bool)
    (hhit : c.touch_if_hit (c.decompose a.address).2.1 (c.decompose a.address).2.2 =
      some (c2, way, b))
    (hway : way < 32) :
    (c.process_access a s).2.prediction =
      some { ps with
        total_hits_observed := ps.total_hits_observed + 1
        first_hits := ps.first_hits + (if b then 1 else 0)
        non_first_hits := ps.non_first_hits + (if b then 0 else 1)
        bit_vector_observations := ps.bit_vector_observations + 1
        bit_vector_search_total := ps.bit_vector_search_total +
          (if mp.observe (c.decompose a.address).2.1 (c.decompose a.address).1 = 0 then 0
           else if (mp.observe (c.decompose a.address).2.1
              (c.decompose a.address).1).testBit way
           then count_ones32
              (mp.observe (c.decompose a.address).2.1 (c.decompose a.address).1 % 2 ^ way) + 1
           else count_ones32
              (mp.observe (c.decompose a.address).2.1 (c.decompose a.address).1)) } := by
  have hobs : c.observe_prediction (c.decompose a.address).2.1 (c.decompose a.address).1 =
      PredictionObservation.multiColumn
        (mp.observe (c.decompose a.address).2.1 (c.decompose a.address).1) := by
    simp [Cache.observe_prediction, hmode, hmp]
  rw [process_access_hit_eq c a s hhit, hobs]
  exact record_prediction_multiColumn
    (mp.observe (c.decompose a.address).2.1 (c.decompose a.address).1) way b
    { s with
      accesses := s.accesses + 1
      reads := s.reads + (match a.kind with | AccessKind.read => 1 | AccessKind.write => 0)
      writes := s.writes + (match a.kind with | AccessKind.read => 0 | AccessKind.write => 1)
      hits := s.hits + 1 }
    ps hps hway

/-- Witness for C6: a concrete MultiColumn hit with a nonzero snapshot. -/
theorem C6_multicolumn_search_witness :
    (cacheC6.process_access ⟨AccessKind.read, 0⟩
        (CacheStats.new PredictionStrategy.multiColumn)).2.prediction =
      some { PredictionStats.new PredictionStrategy.multiColumn with
        total_hits_observed :=
          (PredictionStats.new PredictionStrategy.multiColumn).total_hits_observed + 1
        first_hits := (PredictionStats.new PredictionStrategy.multiColumn).first_hits +
          (if true then 1 else 0)
        non_first_hits := (PredictionStats.new PredictionStrategy.multiColumn).non_first_hits +
          (if true then 0 else 1)
        bit_vector_observations :=
          (PredictionStats.new PredictionStrategy.multiColumn).bit_vector_observations + 1
        bit_vector_search_total :=
          (PredictionStats.new PredictionStrategy.multiColumn).bit_vector_search_total +
          (if mpC6.observe (cacheC6.decompose 0).2.1 (cacheC6.decompose 0).1 = 0 then 0
           else if (mpC6.observe (cacheC6.decompose 0).2.1
              (cacheC6.decompose 0).1).testBit 0
           then count_ones32
              (mpC6.observe (cacheC6.decompose 0).2.1 (cacheC6.decompose 0).1 % 2 ^ 0) + 1
           else count_ones32
              (mpC6.observe (cacheC6.decompose 0).2.1 (cacheC6.decompose 0).1)) } :=
  C6_multicolumn_search cacheC6 ⟨AccessKind.read, 0⟩
    (CacheStats.new PredictionStrategy.multiColumn) mpC6
    (PredictionStats.new PredictionStrategy.multiColumn)
    rfl rfl rfl
    { cacheC6 with
      sets := [[some { tag := 0, block_address := 0, stamp := 2, has_received_hit := true },
        Option.none]] }
    0 true (by decide) (by decide)

theorem touchAux_spec (tag stamp : Nat) :
    ∀ (set set2 : List (Option CacheLine)) (way : Nat) (b : Bool),
      touchAux tag stamp set = some (set2, way, b) →
      ∃ line, set.getD way Option.none = some line ∧ line.tag = tag ∧
        b = !line.has_received_hit ∧ way < set.length ∧
        set2 = set.set way (some { line with has_received_hit := true, stamp := stamp })
  | [], set2, way, b => by intro h; cases h
  | some line :: rest, set2, way, b => by
    intro h
    simp only [touchAux] at h
    by_cases htag : line.tag = tag
    · rw [if_pos htag] at h
      simp only [Option.some.injEq, Prod.mk.injEq] at h
      obtain ⟨he, hw, hb⟩ := h
      subst he
      subst hw
      subst hb
      exact ⟨line, rfl, htag, rfl, by simp, by simp⟩
    · rw [if_neg htag] at h
      rcases htt : touchAux tag stamp rest with _ | ⟨⟨r2, w2, b2⟩⟩
      · rw [htt] at h; cases h
      · rw [htt] at h
        simp only [Option.some.injEq, Prod.mk.injEq] at h
        obtain ⟨he, hw, hb⟩ := h
        subst he
        subst hw
        subst hb
        obtain ⟨l, hl1, hl2, hl3, hl4, hl5⟩ := touchAux_spec tag stamp rest r2 w2 b2 htt
        refine ⟨l, by simpa using hl1, hl2, hl3, by simpa using Nat.succ_lt_succ hl4, ?_⟩
        simp [hl5]
  | Option.none :: rest, set2, way, b => by
    intro h
    simp only [touchAux] at h
    rcases htt : touchAux tag stamp rest with _ | ⟨⟨r2, w2, b2⟩⟩
    · rw [htt] at h; cases h
    · rw [htt] at h
      simp only [Option.some.injEq, Prod.mk.injEq] at h
      obtain ⟨he, hw, hb⟩ := h
      subst he
      subst hw
      subst hb
      obtain ⟨l, hl1, hl2, hl3, hl4, hl5⟩ := touchAux_spec tag stamp rest r2 w2 b2 htt
      refine ⟨l, by simpa using hl1, hl2, hl3, by simpa using Nat.succ_lt_succ hl4, ?_⟩
      simp [hl5]

theorem touch_if_hit_spec (c : Cache) (si tg : Nat) {c2 : Cache} {way : Nat} {b : Bool}
    (h : c.touch_if_hit si tg = some (c2, way, b)) :
    ∃ line, (c.sets.getD si []).getD way Option.none = some line ∧ line.tag = tg ∧
      b = !line.has_received_hit ∧ way < (c.sets.getD si []).length ∧
      c2 = { c with sets := c.sets.set si ((c.sets.getD si []).set way
        (some { line with has_received_hit := true, stamp := c.next_stamp })) } := by
  unfold Cache.touch_if_hit at h
  rcases htt : touchAux tg c.next_stamp (c.sets.getD si []) with _ | ⟨⟨set2, w2, b2⟩⟩
  · rw [htt] at h; cases h
  · rw [htt] at h
    simp only [Option.some.injEq, Prod.mk.injEq] at h
    obtain ⟨he, hw, hb⟩ := h
    obtain ⟨l, hl1, hl2, hl3, hl4, hl5⟩ :=
      touchAux_spec tg c.next_stamp (c.sets.getD si []) set2 w2 b2 htt
    subst hw
    subst hb
    refine ⟨l, hl1, hl2, hl3, hl4, ?_⟩
    rw [← he, hl5]

theorem firstMinIdxNat_spec : ∀ (l : List Nat), l ≠ [] →
    firstMinIdxNat l < l.length ∧
    (∀ j, j < l.length → l.getD (firstMinIdxNat l) 0 ≤ l.getD j 0) ∧
    (∀ j, j < firstMinIdxNat l → l.getD (firstMinIdxNat l) 0 < l.getD j 0)
  | [], h => absurd rfl h
  | [x], _ => by
    refine ⟨by simp [firstMinIdxNat], ?_, ?_⟩
    · intro j hj
      simp only [List.length_singleton] at hj
      have hj0 : j = 0 := by omega
      subst hj0
      exact Nat.le_refl _
    · intro j hj
      simp [firstMinIdxNat] at hj
  | x :: y :: rest, _ => by
    obtain ⟨ih1, ih2, ih3⟩ := firstMinIdxNat_spec (y :: rest) (by simp)
    simp only [firstMinIdxNat]
    by_cases hlt : (y :: rest).getD (firstMinIdxNat (y :: rest)) 0 < x
    · rw [if_pos hlt]
      refine ⟨?_, ?_, ?_⟩
      · simpa using Nat.succ_lt_succ ih1
      · intro j hj
        cases j with
        | zero => simpa using Nat.le_of_lt hlt
        | succ k =>
          have hk : k < (y :: rest).length := by simpa using hj
          simpa using ih2 k hk
      · intro j hj
        cases j with
        | zero => simpa using hlt
        | succ k =>
          have hk : k < firstMinIdxNat (y :: rest) := Nat.lt_of_succ_lt_succ hj
          simpa using ih3 k hk
    · rw [if_neg hlt]
      refine ⟨by simp, ?_, ?_⟩
      · intro j hj
        cases j with
        | zero => exact Nat.le_refl _
        | succ k =>
          have hk : k < (y :: rest).length := by simpa using hj
          have h1 := ih2 k hk
          have h2 := Nat.le_of_not_lt hlt
          simp only [List.getD_cons_zero, List.getD_cons_succ]
          omega
      · intro j hj
        simp at hj

theorem firstNoneIdx_eq_none_of_full : ∀ (set : List (Option CacheLine)),
    (∀ j, j < set.length → (set.getD j Option.none).isSome) →
    firstNoneIdx set = Option.none
  | [], _ => rfl
  | Option.none :: rest, h => by
    have h0 := h 0 (by simp)
    simp at h0
  | some l :: rest, h => by
    simp only [firstNoneIdx]
    rw [firstNoneIdx_eq_none_of_full rest ?_]
    · rfl
    · intro j hj
      have hh := h (j + 1) (by simpa using Nat.succ_lt_succ hj)
      simpa using hh

theorem firstNoneIdx_spec : ∀ (set : List (Option CacheLine)) (idx : Nat),
    firstNoneIdx set = some idx →
    set.getD idx Option.none = Option.none ∧ idx < set.length
  | [], idx => by intro h; cases h
  | Option.none :: rest, idx => by
    intro h
    simp only [firstNoneIdx, Option.some.injEq] at h
    subst h
    exact ⟨rfl, by simp⟩
  | some l :: rest, idx => by
    intro h
    simp only [firstNoneIdx] at h
    rcases hr : firstNoneIdx rest with _ | j
    · rw [hr] at h; cases h
    · rw [hr] at h
      simp only [Option.map_some', Option.some.injEq] at h
      subst h
      obtain ⟨h1, h2⟩ := firstNoneIdx_spec rest j hr
      exact ⟨by simpa using h1, by simpa using Nat.succ_lt_succ h2⟩

theorem getD_map_stampKey (set : List (Option CacheLine)) (j : Nat) (hj : j < set.length) :
    (set.map stampKey).getD j 0 = stampKey (set.getD j Option.none) := by
  induction set generalizing j with
  | nil => simp at hj
  | cons s rest ih =>
    cases j with
    | zero => simp
    | succ k =>
      have hk : k < rest.length := by simpa using hj
      simpa using ih k hk

theorem find_victim_index_base (mode : PredictionStrategy) (mp : Option MultiColumnPredictor)
    (si : Nat) (set : List (Option CacheLine))
    (hmode : mode = PredictionStrategy.none ∨ mode = PredictionStrategy.mru) :
    find_victim_index mode mp si set = firstMinIdxNat (set.map stampKey) := by
  rcases hmode with h | h <;> subst h <;> rfl

theorem install_line_empty (c : Cache) (set_index : Nat) (line : CacheLine) (idx : Nat)
    (hempty : firstNoneIdx (c.sets.getD set_index []) = some idx) :
    c.install_line set_index line =
      ({ c with sets := c.sets.set set_index ((c.sets.getD set_index []).set idx
          (some { line with stamp := c.next_stamp })) }, idx, Option.none) := by
  simp only [Cache.install_line]
  rw [hempty]

theorem install_line_full (c : Cache) (set_index : Nat) (line : CacheLine)
    (hfull : firstNoneIdx (c.sets.getD set_index []) = Option.none)
    {old : CacheLine}
    (hold : (c.sets.getD set_index []).getD
      (find_victim_index c.prediction_mode c.multi_predictor set_index
        (c.sets.getD set_index [])) Option.none = some old) :
    c.install_line set_index line =
      ({ c with sets := c.sets.set set_index ((c.sets.getD set_index []).set
          (find_victim_index c.prediction_mode c.multi_predictor set_index
            (c.sets.getD set_index []))
          (some (if c.prediction_mode = PredictionStrategy.mru
            then { line with stamp := old.stamp } else line))) },
        find_victim_index c.prediction_mode c.multi_predictor set_index
          (c.sets.getD set_index []),
        some (old, find_victim_index c.prediction_mode c.multi_predictor set_index
          (c.sets.getD set_index []))) := by
  simp only [Cache.install_line, hfull, hold]

/-- C4: on a miss into a full set, under both None and Mru the evicted way
holds the valid line with the minimum recency stamp, ties broken by the
lowest way index; under Mru the installed line receives the evicted line's
former stamp (LIP insertion), while under None it keeps the current-tick
stamp it was created with. -/
theorem C4_victim_selection (c : Cache) (set_index : Nat) (line : CacheLine)
    (hmode : c.prediction_mode = PredictionStrategy.none ∨
      c.prediction_mode = PredictionStrategy.mru)
    (hne : c.sets.getD set_index [] ≠ [])
    (hfull : ∀ j, j < (c.sets.getD set_index []).length →
      ((c.sets.getD set_index []).getD j Option.none).isSome)
    (hstamp : line.stamp = c.next_stamp) :
    ∃ way old,
      (c.sets.getD set_index []).getD way Option.none = some old ∧
      way < (c.sets.getD set_index []).length ∧
      (∀ j lj, j < (c.sets.getD set_index []).length →
        (c.sets.getD set_index []).getD j Option.none = some lj → old.stamp ≤ lj.stamp) ∧
      (∀ j lj, j < way →
        (c.sets.getD set_index []).getD j Option.none = some lj → old.stamp < lj.stamp) ∧
      c.install_line set_index line =
        ({ c with sets := c.sets.set set_index ((c.sets.getD set_index []).set way
            (some (if c.prediction_mode = PredictionStrategy.mru
              then { line with stamp := old.stamp } else line))) },
          way, some (old, way)) := by
  have hfv := find_victim_index_base c.prediction_mode c.multi_predictor set_index
    (c.sets.getD set_index []) hmode
  have hkeys : (c.sets.getD set_index []).map stampKey ≠ [] := by
    intro hx
    exact hne (List.map_eq_nil_iff.mp hx)
  obtain ⟨hb, hmin, hfirst⟩ := firstMinIdxNat_spec ((c.sets.getD set_index []).map stampKey)
    hkeys
  rw [List.length_map] at hb
  set w := firstMinIdxNat ((c.sets.getD set_index []).map stampKey) with hw
  have hsw := hfull w hb
  rcases how : (c.sets.getD set_index []).getD w Option.none with _ | old
  · rw [how] at hsw; cases hsw
  · have hold : (c.sets.getD set_index []).getD
        (find_victim_index c.prediction_mode c.multi_predictor set_index
          (c.sets.getD set_index [])) Option.none = some old := by
      rw [hfv]
      exact how
    refine ⟨w, old, how, hb, ?_, ?_, ?_⟩
    · intro j lj hj hlj
      have h1 := hmin j (by simpa using hj)
      rw [getD_map_stampKey _ w hb, getD_map_stampKey _ j hj, how, hlj] at h1
      exact h1
    · intro j lj hj hlj
      have hjlen : j < (c.sets.getD set_index []).length := Nat.lt_trans hj hb
      have h1 := hfirst j hj
      rw [getD_map_stampKey _ w hb, getD_map_stampKey _ j hjlen, how, hlj] at h1
      exact h1
    · have he := install_line_full c set_index line
        (firstNoneIdx_eq_none_of_full _ hfull) hold
      rw [he, hfv]

/-- Witness for C4: a full 2-way set under the None policy; the older line
(way 1, stamp 3) is evicted and the new line keeps its current-tick stamp. -/
theorem C4_victim_selection_witness :
    ∃ way old,
      ((cacheC4.sets.getD 0 []).getD way Option.none = some old) ∧
      way < (cacheC4.sets.getD 0 []).length ∧
      (∀ j lj, j < (cacheC4.sets.getD 0 []).length →
        (cacheC4.sets.getD 0 []).getD j Option.none = some lj → old.stamp ≤ lj.stamp) ∧
      (∀ j lj, j < way →
        (cacheC4.sets.getD 0 []).getD j Option.none = some lj → old.stamp < lj.stamp) ∧
      cacheC4.install_line 0 (CacheLine.new 3 3 7) =
        ({ cacheC4 with sets := cacheC4.sets.set 0 ((cacheC4.sets.getD 0 []).set way
            (some (if cacheC4.prediction_mode = PredictionStrategy.mru
              then { CacheLine.new 3 3 7 with stamp := old.stamp }
              else CacheLine.new 3 3 7))) },
          way, some (old, way)) :=
  C4_victim_selection cacheC4 0 (CacheLine.new 3 3 7) (Or.inl rfl) (by decide)
    (by decide) rfl

/-- C2 as stated is false on the code: before the third access of the
block-address trace `0, 0, 0` on a 1-way Mru cache, the observed MRU
prediction is way 0 and the access hits way 0 — a match — yet the engine
increments the non-first-hit counter (0 to 1) and leaves the first-hit
counter at 1, because `record_prediction` discards the Mru observation and
classifies by the line's has-received-hit flag instead. -/
theorem C2_mru_cex :
    Cache.mru_way cacheC2state 0 = some 0 ∧
    cacheC2state.touch_if_hit 0 0 =
      some ({ cacheC2state with
        sets := [[some { tag := 0, block_address := 0, stamp := 3, has_received_hit := true }]] },
        0, false) ∧
    Option.map PredictionStats.first_hits statsC2state.prediction = some 1 ∧
    Option.map PredictionStats.non_first_hits statsC2state.prediction = some 0 ∧
    Option.map PredictionStats.first_hits
      (cacheC2state.process_access ⟨AccessKind.read, 0⟩ statsC2state).2.prediction = some 1 ∧
    Option.map PredictionStats.non_first_hits
      (cacheC2state.process_access ⟨AccessKind.read, 0⟩ statsC2state).2.prediction = some 1 := by
  decide

/-- C2 (amended): under Mru, on each primary-cache hit the engine computes
the MRU observation but ignores it for classification: the first-hit counter
is incremented exactly when the hit line had not been hit since installation,
and the non-first-hit counter otherwise. -/
theorem C2_mru_first_hit (c : Cache) (a : TraceAccess) (s : CacheStats)
    (ps : PredictionStats)
    (hmode : c.prediction_mode = PredictionStrategy.mru)
    (hps : s.prediction = some ps)
    (c2 : Cache) (way : Nat) (b : Bool)
    (hhit : c.touch_if_hit (c.decompose a.address).2.1 (c.decompose a.address).2.2 =
      some (c2, way, b)) :
    ∃ line, (c.sets.getD (c.decompose a.address).2.1 []).getD way Option.none = some line ∧
      b = !line.has_received_hit ∧
      (c.process_access a s).2.prediction =
        some { ps with
          total_hits_observed := ps.total_hits_observed + 1
          first_hits := ps.first_hits + (if line.has_received_hit then 0 else 1)
          non_first_hits := ps.non_first_hits + (if line.has_received_hit then 1 else 0) } := by
  obtain ⟨line, hl1, hl2, hl3, hl4, hl5⟩ := touch_if_hit_spec c _ _ hhit
  refine ⟨line, hl1, hl3, ?_⟩
  have hobs : c.observe_prediction (c.decompose a.address).2.1 (c.decompose a.address).1 =
      PredictionObservation.mru (c.mru_way (c.decompose a.address).2.1) := by
    simp [Cache.observe_prediction, hmode]
  have hmain : (c.process_access a s).2.prediction =
      some { ps with
        total_hits_observed := ps.total_hits_observed + 1
        first_hits := ps.first_hits + (if b then 1 else 0)
        non_first_hits := ps.non_first_hits + (if b then 0 else 1) } := by
    rw [process_access_hit_eq c a s hhit, hobs]
    exact record_prediction_mru (c.mru_way (c.decompose a.address).2.1) way b
      { s with
        accesses := s.accesses + 1
        reads := s.reads + (match a.kind with | AccessKind.read => 1 | AccessKind.write => 0)
        writes := s.writes + (match a.kind with | AccessKind.read => 0 | AccessKind.write => 1)
        hits := s.hits + 1 } ps hps
  rw [hmain, hl3]
  cases hline : line.has_received_hit <;> simp [hline]

/-- Witness for the amended C2 at the state reached by the trace `0, 0`. -/
theorem C2_mru_first_hit_witness :
    ∃ line, (cacheC2state.sets.getD (cacheC2state.decompose 0).2.1 []).getD 0 Option.none
        = some line ∧
      false = !line.has_received_hit ∧
      (cacheC2state.process_access ⟨AccessKind.read, 0⟩ statsC2state).2.prediction =
        some { psC2 with
          total_hits_observed := psC2.total_hits_observed + 1
          first_hits := psC2.first_hits + (if line.has_received_hit then 0 else 1)
          non_first_hits := psC2.non_first_hits + (if line.has_received_hit then 1 else 0) } :=
  C2_mru_first_hit cacheC2state ⟨AccessKind.read, 0⟩ statsC2state psC2
    (by decide) (by decide)
    { cacheC2state with
      sets := [[some { tag := 0, block_address := 0, stamp := 3, has_received_hit := true }]] }
    0 false (by decide)

theorem getD_set_self {α : Type} (l : List α) (i : Nat) (v d : α) (h : i < l.length) :
    (l.set i v).getD i d = v := by
  simp [List.getD_eq_getElem?_getD, List.getElem?_set_self h]

theorem getD_set_ne {α : Type} (l : List α) {i j : Nat} (v d : α) (h : i ≠ j) :
    (l.set i v).getD j d = l.getD j d := by
  simp [List.getD_eq_getElem?_getD, List.getElem?_set_ne h]

theorem testBit_mark_self (x way : Nat) : (x ||| (1 <<< way)).testBit way = true := by
  simp [Nat.shiftLeft_eq, Nat.testBit_or, Nat.testBit_two_pow_self]

theorem testBit_mark_ne (x way w : Nat) (h : w ≠ way) :
    (x ||| (1 <<< way)).testBit w = x.testBit w := by
  simp [Nat.shiftLeft_eq, Nat.testBit_or, Nat.testBit_two_pow_of_ne (fun he => h he.symm)]

theorem testBit_all_ones32 (w : Nat) (h : w < 32) : Nat.testBit 4294967295 w = true := by
  have he : (4294967295 : Nat) = 2 ^ 32 - 1 := by norm_num
  rw [he, Nat.testBit_two_pow_sub_one]
  simp [h]

theorem testBit_clear_self (x way : Nat) (h : way < 32) :
    (x &&& ((2 ^ 32 - 1) ^^^ (1 <<< way))).testBit way = false := by
  simp [Nat.shiftLeft_eq, Nat.testBit_and, Nat.testBit_xor, testBit_all_ones32 way h,
    Nat.testBit_two_pow_self]

theorem testBit_clear_ne (x way w : Nat) (hw : w < 32) (h : w ≠ way) :
    (x &&& ((2 ^ 32 - 1) ^^^ (1 <<< way))).testBit w = x.testBit w := by
  simp [Nat.shiftLeft_eq, Nat.testBit_and, Nat.testBit_xor, testBit_all_ones32 w hw,
    Nat.testBit_two_pow_of_ne (fun he => h he.symm)]

theorem index_lt {ns k si col : Nat} (hs : si < ns) (hc : col < k) :
    si * k + col < ns * k := by
  have h1 : si * k + col < (si + 1) * k := by
    have : (si + 1) * k = si * k + k := by ring
    omega
  have h2 : (si + 1) * k ≤ ns * k := Nat.mul_le_mul_right k hs
  omega

theorem index_inj {k s1 c1 s2 c2 : Nat} (h1 : c1 < k) (h2 : c2 < k)
    (h : s1 * k + c1 = s2 * k + c2) : s1 = s2 ∧ c1 = c2 := by
  have hk : 0 < k := Nat.lt_of_le_of_lt (Nat.zero_le _) h1
  have e1 : (s1 * k + c1) / k = s1 := by
    rw [Nat.mul_comm s1 k, Nat.mul_add_div hk, Nat.div_eq_of_lt h1, Nat.add_zero]
  have e2 : (s2 * k + c2) / k = s2 := by
    rw [Nat.mul_comm s2 k, Nat.mul_add_div hk, Nat.div_eq_of_lt h2, Nat.add_zero]
  have hs : s1 = s2 := by rw [← e1, ← e2, h]
  subst hs
  exact ⟨rfl, by omega⟩

theorem column_lt (mp : MultiColumnPredictor) (ba : Nat) (h : 0 < mp.columns) :
    mp.column ba < mp.columns := by
  unfold MultiColumnPredictor.column
  split
  · omega
  · exact Nat.mod_lt _ h

theorem mark_frame (mp : MultiColumnPredictor) (si ba way : Nat) :
    (mp.mark si ba way).sets = mp.sets ∧ (mp.mark si ba way).columns = mp.columns ∧
    (mp.mark si ba way).bits.length = mp.bits.length := by
  unfold MultiColumnPredictor.mark
  split <;> simp

theorem clear_frame (mp : MultiColumnPredictor) (si ba way : Nat) :
    (mp.clear si ba way).sets = mp.sets ∧ (mp.clear si ba way).columns = mp.columns ∧
    (mp.clear si ba way).bits.length = mp.bits.length := by
  unfold MultiColumnPredictor.clear
  split <;> simp

theorem mark_column_eq (mp : MultiColumnPredictor) (si ba way x : Nat) :
    (mp.mark si ba way).column x = mp.column x := by
  unfold MultiColumnPredictor.mark MultiColumnPredictor.column
  split <;> simp

theorem clear_column_eq (mp : MultiColumnPredictor) (si ba way x : Nat) :
    (mp.clear si ba way).column x = mp.column x := by
  unfold MultiColumnPredictor.clear MultiColumnPredictor.column
  split <;> simp

theorem mark_index_eq (mp : MultiColumnPredictor) (si ba way s col : Nat) :
    (mp.mark si ba way).index s col = mp.index s col := by
  unfold MultiColumnPredictor.mark MultiColumnPredictor.index
  split <;> simp

theorem clear_index_eq (mp : MultiColumnPredictor) (si ba way s col : Nat) :
    (mp.clear si ba way).index s col = mp.index s col := by
  unfold MultiColumnPredictor.clear MultiColumnPredictor.index
  split <;> simp

theorem mark_read_self (mp : MultiColumnPredictor) (si ba way : Nat) (hway : way < 32)
    (hlen : mp.index si (mp.column ba) < mp.bits.length) :
    (mp.mark si ba way).bits.getD (mp.index si (mp.column ba)) 0 =
      mp.bits.getD (mp.index si (mp.column ba)) 0 ||| (1 <<< way) := by
  unfold MultiColumnPredictor.mark
  rw [if_neg (by omega)]
  exact getD_set_self _ _ _ _ hlen

theorem mark_read_ne (mp : MultiColumnPredictor) (si ba way j : Nat)
    (hj : j ≠ mp.index si (mp.column ba)) :
    (mp.mark si ba way).bits.getD j 0 = mp.bits.getD j 0 := by
  unfold MultiColumnPredictor.mark
  split
  · rfl
  · exact getD_set_ne _ _ _ (fun he => hj he.symm)

theorem mark_read_ge (mp : MultiColumnPredictor) (si ba way j : Nat) (hway : 32 ≤ way) :
    (mp.mark si ba way).bits.getD j 0 = mp.bits.getD j 0 := by
  unfold MultiColumnPredictor.mark
  rw [if_pos hway]

theorem clear_read_self (mp : MultiColumnPredictor) (si ba way : Nat) (hway : way < 32)
    (hlen : mp.index si (mp.column ba) < mp.bits.length) :
    (mp.clear si ba way).bits.getD (mp.index si (mp.column ba)) 0 =
      mp.bits.getD (mp.index si (mp.column ba)) 0 &&& ((2 ^ 32 - 1) ^^^ (1 <<< way)) := by
  unfold MultiColumnPredictor.clear
  rw [if_neg (by omega)]
  exact getD_set_self _ _ _ _ hlen

theorem clear_read_ne (mp : MultiColumnPredictor) (si ba way j : Nat)
    (hj : j ≠ mp.index si (mp.column ba)) :
    (mp.clear si ba way).bits.getD j 0 = mp.bits.getD j 0 := by
  unfold MultiColumnPredictor.clear
  split
  · rfl
  · exact getD_set_ne _ _ _ (fun he => hj he.symm)

theorem clear_read_ge (mp : MultiColumnPredictor) (si ba way j : Nat) (hway : 32 ≤ way) :
    (mp.clear si ba way).bits.getD j 0 = mp.bits.getD j 0 := by
  unfold MultiColumnPredictor.clear
  rw [if_pos hway]

theorem takeFirst_mem (ba : Nat) : ∀ (entries : List CacheLine) (l : CacheLine)
    (rest : List CacheLine), takeFirst ba entries = some (l, rest) →
    l.block_address = ba ∧ l ∈ entries ∧ ∀ x, x ∈ rest → x ∈ entries
  | [], l, rest => by intro h; cases h
  | e :: es, l, rest => by
    intro h
    simp only [takeFirst] at h
    by_cases hba : e.block_address = ba
    · rw [if_pos hba] at h
      simp only [Option.some.injEq, Prod.mk.injEq] at h
      obtain ⟨h1, h2⟩ := h
      subst h1
      subst h2
      exact ⟨hba, by simp, fun x hx => by simp [hx]⟩
    · rw [if_neg hba] at h
      rcases ht : takeFirst ba es with _ | ⟨⟨l2, rest2⟩⟩
      · rw [ht] at h; cases h
      · rw [ht] at h
        simp only [Option.some.injEq, Prod.mk.injEq] at h
        obtain ⟨h1, h2⟩ := h
        subst h1
        obtain ⟨g1, g2, g3⟩ := takeFirst_mem ba es l2 rest2 ht
        refine ⟨g1, by simp [g2], ?_⟩
        intro x hx
        rw [← h2] at hx
        rcases List.mem_cons.mp hx with hx1 | hx2
        · simp [hx1]
        · simp [g3 x hx2]

theorem take_entries_sub (v : VictimBuffer) (ba : Nat) (r : Option CacheLine)
    (v2 : VictimBuffer) (h : v.take ba = (r, v2)) :
    (∀ l, l ∈ v2.entries → l ∈ v.entries) ∧
    (∀ line, r = some line → line.block_address = ba ∧ line ∈ v.entries) := by
  unfold VictimBuffer.take at h
  by_cases hc : v.capacity = 0
  · rw [if_pos hc] at h
    simp only [Prod.mk.injEq] at h
    obtain ⟨h1, h2⟩ := h
    subst h2
    refine ⟨fun l hl => hl, ?_⟩
    intro line hline
    rw [← h1] at hline
    cases hline
  · rw [if_neg hc] at h
    rcases ht : takeFirst ba v.entries with _ | ⟨⟨l2, rest2⟩⟩
    · rw [ht] at h
      simp only [Prod.mk.injEq] at h
      obtain ⟨h1, h2⟩ := h
      subst h2
      refine ⟨fun l hl => hl, ?_⟩
      intro line hline
      rw [← h1] at hline
      cases hline
    · rw [ht] at h
      simp only [Prod.mk.injEq] at h
      obtain ⟨h1, h2⟩ := h
      obtain ⟨g1, g2, g3⟩ := takeFirst_mem ba v.entries l2 rest2 ht
      subst h2
      refine ⟨fun l hl => g3 l hl, ?_⟩
      intro line hline
      rw [← h1] at hline
      cases hline
      exact ⟨g1, g2⟩

theorem insert_entries_mem (v : VictimBuffer) (line : CacheLine) (st : Nat) :
    ∀ l, l ∈ (v.insert line st).entries →
      l ∈ v.entries ∨ l = { line with stamp := st } := by
  intro l hl
  unfold VictimBuffer.insert at hl
  by_cases hc : v.capacity = 0
  · rw [if_pos hc] at hl
    exact Or.inl hl
  · rw [if_neg hc] at hl
    simp only at hl
    rcases List.mem_append.mp hl with h1 | h2
    · split at h1
      · exact Or.inl (List.mem_of_mem_eraseIdx h1)
      · exact Or.inl h1
    · right
      simpa using h2

theorem firstNoneIdx_none_spec : ∀ (set : List (Option CacheLine)),
    firstNoneIdx set = Option.none →
    ∀ j, j < set.length → (set.getD j Option.none).isSome
  | [] => by intro h j hj; simp at hj
  | Option.none :: rest => by intro h; cases h
  | some l :: rest => by
    intro h j hj
    simp only [firstNoneIdx, Option.map_eq_none'] at h
    cases j with
    | zero => simp
    | succ k =>
      have hk : k < rest.length := by simpa using hj
      simpa using firstNoneIdx_none_spec rest h k hk

theorem firstMinIdxLex_lt : ∀ (l : List (Nat × Nat × Nat)), l ≠ [] →
    firstMinIdxLex l < l.length
  | [], h => absurd rfl h
  | [_], _ => by simp [firstMinIdxLex]
  | x :: y :: rest, _ => by
    have ih := firstMinIdxLex_lt (y :: rest) (by simp)
    simp only [firstMinIdxLex]
    split
    · simpa using Nat.succ_lt_succ ih
    · simp

theorem find_victim_index_lt (mode : PredictionStrategy) (mp : Option MultiColumnPredictor)
    (si : Nat) (set : List (Option CacheLine)) (hne : set ≠ []) :
    find_victim_index mode mp si set < set.length := by
  rcases mode with _ | _ | _
  · have hk : set.map stampKey ≠ [] := fun hx => hne (List.map_eq_nil_iff.mp hx)
    have := (firstMinIdxNat_spec (set.map stampKey) hk).1
    simpa using this
  · have hk : set.map stampKey ≠ [] := fun hx => hne (List.map_eq_nil_iff.mp hx)
    have := (firstMinIdxNat_spec (set.map stampKey) hk).1
    simpa using this
  · unfold find_victim_index
    have hk : set.enum.map (fun p =>
        match p.2 with
        | some line =>
          (((mp.getD (MultiColumnPredictor.new 0 0)).observe si line.block_address >>> p.1)
            &&& 1, line.stamp, p.1)
        | Option.none => (0, 0, p.1)) ≠ [] := by
      intro hx
      rcases set with _ | ⟨a, as⟩
      · exact hne rfl
      · simp [List.enum] at hx
    have hb := firstMinIdxLex_lt _ hk
    simpa using hb

theorem update_mc_hit_eq (c : Cache) (si ba way : Nat) (mp : MultiColumnPredictor)
    (hmp : c.multi_predictor = some mp) :
    c.update_multi_column_on_hit si ba way =
      { c with multi_predictor := some (mp.mark si ba way) } := by
  simp [Cache.update_multi_column_on_hit, hmp]

theorem mc_evict_eq (c : Cache) (si : Nat) (line : CacheLine) (way : Nat)
    (mp : MultiColumnPredictor) (hmp : c.multi_predictor = some mp) :
    c.multi_column_on_evict si line way =
      { c with multi_predictor := some (mp.clear si line.block_address way) } := by
  simp [Cache.multi_column_on_evict, hmp]

theorem victim_insert_some_eq (c : Cache) (line : CacheLine) (v : VictimBuffer)
    (hv : c.victim = some v) :
    c.victim_insert line = { c with victim := some (v.insert line c.next_stamp) } := by
  simp [Cache.victim_insert, hv]

theorem victim_insert_none_eq (c : Cache) (line : CacheLine)
    (hv : c.victim = Option.none) :
    c.victim_insert line = c := by
  simp [Cache.victim_insert, hv]

theorem mark_hit_at_eq (c : Cache) (si way : Nat) (line : CacheLine)
    (hl : (c.sets.getD si []).getD way Option.none = some line) :
    c.mark_hit_at si way =
      { c with sets := c.sets.set si ((c.sets.getD si []).set way
        (some { line with has_received_hit := true })) } := by
  simp only [Cache.mark_hit_at]
  rw [hl]

theorem MCInv_core (c c2 : Cache) (mp newmp : MultiColumnPredictor)
    (hmp : c.multi_predictor = some mp) (hinv : MCInv c)
    (si way : Nat) (hsi : si < c.num_sets) (hway : way < (c.sets.getD si []).length)
    (newline : CacheLine)
    (htag : newline.block_address / c.num_sets = newline.tag)
    (h2sets : c2.sets = c.sets.set si ((c.sets.getD si []).set way (some newline)))
    (h2n : c2.num_sets = c.num_sets)
    (h2mp : c2.multi_predictor = some newmp)
    (hframe : newmp.sets = mp.sets ∧ newmp.columns = mp.columns ∧
      newmp.bits.length = mp.bits.length)
    (hcol : ∀ x, newmp.column x = mp.column x)
    (hidx : ∀ a b, newmp.index a b = mp.index a b)
    (hfar : ∀ s2 col2, s2 ≠ si → col2 < mp.columns → s2 < c.num_sets →
      newmp.bits.getD (mp.index s2 col2) 0 = mp.bits.getD (mp.index s2 col2) 0)
    (hnear : ∀ col2 w2, col2 < mp.columns → w2 < 32 → w2 ≠ way →
      (newmp.bits.getD (mp.index si col2) 0).testBit w2 =
      (mp.bits.getD (mp.index si col2) 0).testBit w2)
    (hat : way < 32 → ∀ col2, col2 < mp.columns →
      ((newmp.bits.getD (mp.index si col2) 0).testBit way = true ↔
        (newline.has_received_hit = true ∧ mp.column newline.block_address = col2)))
    (hvic : ∀ v1, c2.victim = some v1 → ∀ l, l ∈ v1.entries →
      l.block_address / c.num_sets = l.tag) :
    MCInv c2 := by
  have hsilen : si < c.sets.length := by rw [hinv.sets_len]; exact hsi
  have hgetsi : (c2.sets.getD si []) = (c.sets.getD si []).set way (some newline) := by
    rw [h2sets]
    exact getD_set_self _ _ _ _ hsilen
  have hgetne : ∀ s2, s2 ≠ si → (c2.sets.getD s2 []) = c.sets.getD s2 [] := by
    intro s2 hs2
    rw [h2sets]
    exact getD_set_ne _ _ _ (fun he => hs2 he.symm)
  refine ⟨?_, ?_, ?_, ⟨newmp, h2mp⟩, ?_, ?_, ?_, ?_⟩
  · rw [h2sets, h2n, List.length_set]
    exact hinv.sets_len
  · rw [h2n]; exact hinv.nsets_pos
  · -- ways_pos
    intro s2 hs2
    rw [h2n] at hs2
    by_cases he : s2 = si
    · subst he
      rw [hgetsi]
      intro hx
      have hlen := congrArg List.length hx
      rw [List.length_set] at hlen
      simp only [List.length_nil] at hlen
      exact hinv.ways_pos s2 hs2 (List.length_eq_zero.mp hlen)
    · rw [hgetne s2 he]
      exact hinv.ways_pos s2 hs2
  · -- shape
    intro mp2 hmp2
    rw [h2mp] at hmp2
    injection hmp2 with hmp2
    subst hmp2
    obtain ⟨g1, g2, g3⟩ := hinv.shape mp hmp
    rw [h2n]
    exact ⟨by rw [hframe.1]; exact g1, by rw [hframe.2.1]; exact g2,
      by rw [hframe.2.2, hframe.2.1]; exact g3⟩
  · -- line_tag
    intro s2 w2 line2 hl2
    rw [h2n]
    by_cases he : s2 = si
    · subst he
      rw [hgetsi] at hl2
      by_cases hwe : w2 = way
      · subst hwe
        rw [getD_set_self _ _ _ _ hway] at hl2
        cases hl2
        exact htag
      · rw [getD_set_ne _ _ _ (fun he2 => hwe he2.symm)] at hl2
        exact hinv.line_tag s2 w2 line2 hl2
    · rw [hgetne s2 he] at hl2
      exact hinv.line_tag s2 w2 line2 hl2
  · -- victim_tag
    intro v1 hv1 l hl
    rw [h2n]
    exact hvic v1 hv1 l hl
  · -- bits_iff
    intro mp2 hmp2
    rw [h2mp] at hmp2
    injection hmp2 with hmp2
    subst hmp2
    intro s2 col2 w2 hs2 hcol2 hw2
    rw [h2n] at hs2
    rw [hidx]
    have hcol2m : col2 < mp.columns := by rw [← hframe.2.1]; exact hcol2
    by_cases he : s2 = si
    · subst he
      rw [hgetsi]
      by_cases hwe : w2 = way
      · subst hwe
        rw [getD_set_self _ _ _ _ hway]
        rw [hat hw2 col2 hcol2m]
        constructor
        · rintro ⟨h1, h2⟩
          exact ⟨newline, rfl, by rw [hcol]; exact h2, h1⟩
        · rintro ⟨line2, hl2, hc2, hh2⟩
          cases hl2
          exact ⟨hh2, by rw [← hcol newline.block_address]; exact hc2⟩
      · rw [getD_set_ne _ _ _ (fun he2 => hwe he2.symm)]
        rw [hnear col2 w2 hcol2m hw2 hwe]
        rw [hinv.bits_iff mp hmp s2 col2 w2 hs2 hcol2m hw2]
        constructor
        · rintro ⟨line2, hl2, hc2, hh2⟩
          exact ⟨line2, hl2, by rw [hcol]; exact hc2, hh2⟩
        · rintro ⟨line2, hl2, hc2, hh2⟩
          exact ⟨line2, hl2, by rw [← hcol line2.block_address]; exact hc2, hh2⟩
    · rw [hgetne s2 he]
      rw [hfar s2 col2 he hcol2m hs2]
      rw [hinv.bits_iff mp hmp s2 col2 w2 hs2 hcol2m hw2]
      constructor
      · rintro ⟨line2, hl2, hc2, hh2⟩
        exact ⟨line2, hl2, by rw [hcol]; exact hc2, hh2⟩
      · rintro ⟨line2, hl2, hc2, hh2⟩
        exact ⟨line2, hl2, by rw [← hcol line2.block_address]; exact hc2, hh2⟩

theorem index_len (mp : MultiColumnPredictor) (ns : Nat)
    (h1 : 0 < mp.columns) (h3 : mp.bits.length = ns * mp.columns)
    (si : Nat) (hsi : si < ns) (x : Nat) :
    mp.index si (mp.column x) < mp.bits.length := by
  rw [h3]
  exact index_lt hsi (column_lt mp x h1)

theorem mark_far (p : MultiColumnPredictor) (si mba way s2 col2 : Nat)
    (hcol2 : col2 < p.columns) (hcm : p.column mba < p.columns) (hs2 : s2 ≠ si) :
    (p.mark si mba way).bits.getD (p.index s2 col2) 0 = p.bits.getD (p.index s2 col2) 0 := by
  apply mark_read_ne
  intro he
  exact hs2 (index_inj hcol2 hcm he).1

theorem clear_far (p : MultiColumnPredictor) (si oldba way s2 col2 : Nat)
    (hcol2 : col2 < p.columns) (hcm : p.column oldba < p.columns) (hs2 : s2 ≠ si) :
    (p.clear si oldba way).bits.getD (p.index s2 col2) 0 =
      p.bits.getD (p.index s2 col2) 0 := by
  apply clear_read_ne
  intro he
  exact hs2 (index_inj hcol2 hcm he).1

theorem mark_near (p : MultiColumnPredictor) (si mba way col2 w2 : Nat)
    (hcol2 : col2 < p.columns) (hcm : p.column mba < p.columns)
    (hlen : p.index si (p.column mba) < p.bits.length)
    (hne : w2 ≠ way) :
    ((p.mark si mba way).bits.getD (p.index si col2) 0).testBit w2 =
      (p.bits.getD (p.index si col2) 0).testBit w2 := by
  by_cases hge : 32 ≤ way
  · rw [mark_read_ge p si mba way _ hge]
  · by_cases hce : col2 = p.column mba
    · subst hce
      rw [mark_read_self p si mba way (by omega) hlen]
      exact testBit_mark_ne _ way w2 hne
    · have hne2 : p.index si col2 ≠ p.index si (p.column mba) := by
        intro he
        have he3 : si * p.columns + col2 = si * p.columns + p.column mba := he
        exact hce (index_inj hcol2 hcm he3).2
      rw [mark_read_ne p si mba way _ hne2]

theorem clear_near (p : MultiColumnPredictor) (si oldba way col2 w2 : Nat)
    (hcol2 : col2 < p.columns) (hcm : p.column oldba < p.columns)
    (hlen : p.index si (p.column oldba) < p.bits.length)
    (hw2 : w2 < 32) (hne : w2 ≠ way) :
    ((p.clear si oldba way).bits.getD (p.index si col2) 0).testBit w2 =
      (p.bits.getD (p.index si col2) 0).testBit w2 := by
  by_cases hge : 32 ≤ way
  · rw [clear_read_ge p si oldba way _ hge]
  · by_cases hce : col2 = p.column oldba
    · subst hce
      rw [clear_read_self p si oldba way (by omega) hlen]
      exact testBit_clear_ne _ way w2 hw2 hne
    · have hne2 : p.index si col2 ≠ p.index si (p.column oldba) := by
        intro he
        have he3 : si * p.columns + col2 = si * p.columns + p.column oldba := he
        exact hce (index_inj hcol2 hcm he3).2
      rw [clear_read_ne p si oldba way _ hne2]

theorem mark_at (p : MultiColumnPredictor) (si mba way col2 : Nat)
    (hcol2 : col2 < p.columns) (hcm : p.column mba < p.columns)
    (hlen : p.index si (p.column mba) < p.bits.length) (hway : way < 32) :
    ((p.mark si mba way).bits.getD (p.index si col2) 0).testBit way =
      (if col2 = p.column mba then true
       else (p.bits.getD (p.index si col2) 0).testBit way) := by
  by_cases hce : col2 = p.column mba
  · rw [if_pos hce, hce, mark_read_self p si mba way hway hlen]
    exact testBit_mark_self _ way
  · have hne2 : p.index si col2 ≠ p.index si (p.column mba) := by
      intro he
      have he3 : si * p.columns + col2 = si * p.columns + p.column mba := he
      exact hce (index_inj hcol2 hcm he3).2
    rw [if_neg hce, mark_read_ne p si mba way _ hne2]

theorem clear_at (p : MultiColumnPredictor) (si oldba way col2 : Nat)
    (hcol2 : col2 < p.columns) (hcm : p.column oldba < p.columns)
    (hlen : p.index si (p.column oldba) < p.bits.length) (hway : way < 32) :
    ((p.clear si oldba way).bits.getD (p.index si col2) 0).testBit way =
      (if col2 = p.column oldba then false
       else (p.bits.getD (p.index si col2) 0).testBit way) := by
  by_cases hce : col2 = p.column oldba
  · rw [if_pos hce, hce, clear_read_self p si oldba way hway hlen]
    exact testBit_clear_self _ way hway
  · have hne2 : p.index si col2 ≠ p.index si (p.column oldba) := by
      intro he
      have he3 : si * p.columns + col2 = si * p.columns + p.column oldba := he
      exact hce (index_inj hcol2 hcm he3).2
    rw [if_neg hce, clear_read_ne p si oldba way _ hne2]

theorem column_congr (mp : MultiColumnPredictor) (n x y : Nat) (hs : mp.sets = n)
    (h : x / n = y / n) : mp.column x = mp.column y := by
  unfold MultiColumnPredictor.column
  split
  · rfl
  · rw [hs, h]

theorem victim_take_spec (c : Cache) (ba : Nat) (r : Option CacheLine) (c1 : Cache)
    (h : c.victim_take ba = (r, c1)) :
    c1.sets = c.sets ∧ c1.multi_predictor = c.multi_predictor ∧
    c1.num_sets = c.num_sets ∧ c1.next_stamp = c.next_stamp ∧
    c1.config = c.config ∧ c1.prediction_mode = c.prediction_mode ∧
    (∀ v1, c1.victim = some v1 → ∀ l, l ∈ v1.entries →
      ∃ v, c.victim = some v ∧ l ∈ v.entries) ∧
    (∀ line, r = some line → line.block_address = ba ∧
      ∃ v, c.victim = some v ∧ line ∈ v.entries) := by
  unfold Cache.victim_take at h
  rcases hv : c.victim with _ | v
  · rw [hv] at h
    simp only [Prod.mk.injEq] at h
    obtain ⟨h1, h2⟩ := h
    subst h2
    refine ⟨rfl, rfl, rfl, rfl, rfl, rfl, ?_, ?_⟩
    · intro v1 hv1 l hl
      rw [hv] at hv1
      cases hv1
    · intro line hline
      rw [← h1] at hline
      cases hline
  · rw [hv] at h
    replace h : ((v.take ba).1, { c with victim := some (v.take ba).2 }) = (r, c1) := h
    rcases ht : v.take ba with ⟨r0, v2⟩
    rw [ht] at h
    simp only [Prod.mk.injEq] at h
    obtain ⟨h1, h2⟩ := h
    obtain ⟨g1, g2⟩ := take_entries_sub v ba r0 v2 ht
    subst h2
    refine ⟨rfl, rfl, rfl, rfl, rfl, rfl, ?_, ?_⟩
    · intro v1 hv1 l hl
      have he : some v2 = some v1 := hv1
      cases he
      exact ⟨v, rfl, g1 l hl⟩
    · intro line hline
      rw [← h1] at hline
      obtain ⟨e1, e2⟩ := g2 line hline
      exact ⟨e1, v, rfl, e2⟩

theorem MCInv_hit_path (c : Cache) (a : TraceAccess) (s : CacheStats)
    {c2 : Cache} {way : Nat} {b : Bool}
    (hhit : c.touch_if_hit (c.decompose a.address).2.1 (c.decompose a.address).2.2 =
      some (c2, way, b))
    (hinv : MCInv c) : MCInv (c.process_access a s).1 := by
  obtain ⟨mp, hmp⟩ := hinv.mp_some
  obtain ⟨line, hl1, hl2, hl3, hl4, hc2⟩ := touch_if_hit_spec c _ _ hhit
  obtain ⟨hsh1, hsh2, hsh3⟩ := hinv.shape mp hmp
  have hsi : (c.decompose a.address).2.1 < c.num_sets := Nat.mod_lt _ hinv.nsets_pos
  have hstate : (c.process_access a s).1 =
      { c with
        sets := c.sets.set (c.decompose a.address).2.1
          ((c.sets.getD (c.decompose a.address).2.1 []).set way
            (some { line with has_received_hit := true, stamp := c.next_stamp })),
        multi_predictor := some (mp.mark (c.decompose a.address).2.1
          (c.decompose a.address).1 way),
        next_stamp := c.next_stamp + 1 } := by
    have hmp2 : c2.multi_predictor = some mp := by rw [hc2]; exact hmp
    rw [process_access_hit_eq c a s hhit,
      update_mc_hit_eq c2 (c.decompose a.address).2.1 (c.decompose a.address).1 way mp hmp2,
      hc2]
  rw [hstate]
  have htag : line.block_address / c.num_sets = line.tag := hinv.line_tag _ _ _ hl1
  have hcba : mp.column (c.decompose a.address).1 = mp.column line.block_address := by
    refine column_congr mp c.num_sets _ _ hsh1 ?_
    rw [htag, hl2]
    rfl
  have hcm : mp.column (c.decompose a.address).1 < mp.columns :=
    column_lt mp _ hsh2
  have hlen : mp.index (c.decompose a.address).2.1
      (mp.column (c.decompose a.address).1) < mp.bits.length :=
    index_len mp c.num_sets hsh2 hsh3 _ hsi _
  refine MCInv_core c _ mp _ hmp hinv (c.decompose a.address).2.1 way hsi hl4
    { line with has_received_hit := true, stamp := c.next_stamp }
    htag rfl rfl rfl
    ⟨(mark_frame mp _ _ way).1, (mark_frame mp _ _ way).2.1, (mark_frame mp _ _ way).2.2⟩
    (fun x => mark_column_eq mp _ _ way x)
    (fun a2 b2 => mark_index_eq mp _ _ way a2 b2)
    ?_ ?_ ?_ ?_
  · intro s2 col2 hs2 hcol2 hs2lt
    exact mark_far mp _ _ way s2 col2 hcol2 hcm hs2
  · intro col2 w2 hcol2 hw2 hne
    exact mark_near mp _ _ way col2 w2 hcol2 hcm hlen hne
  · intro hway col2 hcol2
    rw [mark_at mp _ _ way col2 hcol2 hcm hlen hway]
    by_cases hce : col2 = mp.column (c.decompose a.address).1
    · rw [if_pos hce]
      constructor
      · intro _
        refine ⟨rfl, ?_⟩
        show mp.column line.block_address = col2
        rw [← hcba, hce]
      · intro _
        rfl
    · rw [if_neg hce]
      rw [hinv.bits_iff mp hmp _ col2 way hsi hcol2 hway]
      constructor
      · rintro ⟨line2, hline2, hcl2, hh2⟩
        rw [hl1] at hline2
        cases hline2
        apply absurd ?_ hce
        rw [hcba]
        exact hcl2.symm
      · rintro ⟨hh2, hc2col⟩
        apply absurd ?_ hce
        have hc3 : mp.column line.block_address = col2 := hc2col
        rw [hcba]
        exact hc3.symm
  · intro v1 hv1 l hl
    exact hinv.victim_tag v1 hv1 l hl

theorem handle_eviction_full_eq (c0 : Cache) (si : Nat) (old : CacheLine) (w : Nat)
    (mp0 : MultiColumnPredictor) (hmp0 : c0.multi_predictor = some mp0) :
    c0.handle_eviction si (some (old, w)) =
      { c0 with
        multi_predictor := some (mp0.clear si old.block_address w),
        victim :=
          match c0.victim with
          | some v => some (v.insert old c0.next_stamp)
          | Option.none => Option.none } := by
  simp only [Cache.handle_eviction]
  rw [mc_evict_eq c0 si old w mp0 hmp0]
  rcases hv : c0.victim with _ | v <;> simp [Cache.victim_insert]

theorem MCInv_miss_path (c : Cache) (a : TraceAccess) (s : CacheStats)
    (hmode : c.prediction_mode = PredictionStrategy.multiColumn)
    (hmiss : c.touch_if_hit (c.decompose a.address).2.1 (c.decompose a.address).2.2 =
      Option.none)
    (hinv : MCInv c) : MCInv (c.process_access a s).1 := by
  obtain ⟨mp, hmp⟩ := hinv.mp_some
  obtain ⟨hsh1, hsh2, hsh3⟩ := hinv.shape mp hmp
  have hsi : (c.decompose a.address).2.1 < c.num_sets := Nat.mod_lt _ hinv.nsets_pos
  rcases hvt : c.victim_take (c.decompose a.address).1 with ⟨vl, c1⟩
  obtain ⟨hf1, hf2, hf3, hf4, hf5, hf6, hfvic, hfline⟩ :=
    victim_take_spec c _ vl c1 hvt
  have hnotmru : ¬ c1.prediction_mode = PredictionStrategy.mru := by
    rw [hf6, hmode]
    intro hx
    cases hx
  have hmp1 : c1.multi_predictor = some mp := by rw [hf2]; exact hmp
  have hsilen : (c.decompose a.address).2.1 < c1.sets.length := by
    rw [hf1, hinv.sets_len]; exact hsi
  have hvicgen : ∀ v1, c1.victim = some v1 → ∀ l, l ∈ v1.entries →
      l.block_address / c.num_sets = l.tag := by
    intro v1 hv1 l hl
    obtain ⟨v, hv, hlv⟩ := hfvic v1 hv1 l hl
    exact hinv.victim_tag v hv l hlv
  rcases vl with _ | line0
  · -- plain miss
    rcases hfn : firstNoneIdx (c.sets.getD (c.decompose a.address).2.1 []) with _ | idx
    · -- full set: eviction, no mark
      have hfull1 : firstNoneIdx (c1.sets.getD (c.decompose a.address).2.1 []) =
          Option.none := by
        rw [hf1]; exact hfn
      have hne0 : c.sets.getD (c.decompose a.address).2.1 [] ≠ [] :=
        hinv.ways_pos _ hsi
      have hidxlt : find_victim_index c1.prediction_mode c1.multi_predictor
          (c.decompose a.address).2.1 (c1.sets.getD (c.decompose a.address).2.1 []) <
          (c.sets.getD (c.decompose a.address).2.1 []).length := by
        rw [hf1]
        exact find_victim_index_lt _ _ _ _ hne0
      set idx := find_victim_index c1.prediction_mode c1.multi_predictor
        (c.decompose a.address).2.1 (c1.sets.getD (c.decompose a.address).2.1 []) with hidxdef
      have hsome := firstNoneIdx_none_spec _ hfn idx hidxlt
      rcases hgets : (c.sets.getD (c.decompose a.address).2.1 []).getD idx Option.none with
        _ | old
      · rw [hgets] at hsome; cases hsome
      · have hold1 : (c1.sets.getD (c.decompose a.address).2.1 []).getD
            (find_victim_index c1.prediction_mode c1.multi_predictor
              (c.decompose a.address).2.1 (c1.sets.getD (c.decompose a.address).2.1 []))
            Option.none = some old := by
          rw [← hidxdef, hf1]
          exact hgets
        have hinst := install_line_full c1 (c.decompose a.address).2.1
          (CacheLine.new (c.decompose a.address).2.2 (c.decompose a.address).1 c1.next_stamp)
          hfull1 hold1
        rw [if_neg hnotmru, ← hidxdef] at hinst
        rcases hinstd : c1.install_line (c.decompose a.address).2.1
          (CacheLine.new (c.decompose a.address).2.2 (c.decompose a.address).1 c1.next_stamp)
          with ⟨cI, idx2, ev⟩
        rw [hinstd] at hinst
        simp only [Prod.mk.injEq] at hinst
        obtain ⟨hcI, hidx2, hev⟩ := hinst
        have hcIs : cI.sets = c.sets.set (c.decompose a.address).2.1
            ((c.sets.getD (c.decompose a.address).2.1 []).set idx
              (some (CacheLine.new (c.decompose a.address).2.2
                (c.decompose a.address).1 c1.next_stamp))) := by
          simp only [hcI]
          rw [hf1]
        have hcIn : cI.num_sets = c.num_sets := by simp only [hcI]; exact hf3
        have hcIv : cI.victim = c1.victim := by simp only [hcI]
        have hcIns : cI.next_stamp = c1.next_stamp := by simp only [hcI]
        have hcImp : cI.multi_predictor = some mp := by simp only [hcI]; exact hmp1
        have hcmo : mp.column old.block_address < mp.columns := column_lt mp _ hsh2
        have hleno : mp.index (c.decompose a.address).2.1 (mp.column old.block_address) <
            mp.bits.length :=
          index_len mp c.num_sets hsh2 hsh3 _ hsi _
        have htago : old.block_address / c.num_sets = old.tag :=
          hinv.line_tag _ _ _ hgets
        have hstate : (c.process_access a s).1 =
            { cI with
              multi_predictor := some (mp.clear (c.decompose a.address).2.1
                old.block_address idx),
              victim :=
                match cI.victim with
                | some v => some (v.insert old cI.next_stamp)
                | Option.none => Option.none,
              next_stamp := cI.next_stamp + 1 } := by
          rw [process_access_miss_eq c a s hmiss hvt, hinstd]
          show ({ (Cache.handle_eviction cI (c.decompose a.address).2.1 ev) with
              next_stamp :=
                (Cache.handle_eviction cI (c.decompose a.address).2.1 ev).next_stamp + 1 }
              : Cache) = _
          rw [hev, handle_eviction_full_eq cI (c.decompose a.address).2.1 old idx mp hcImp]
        rw [hstate]
        refine MCInv_core c _ mp
          (mp.clear (c.decompose a.address).2.1 old.block_address idx)
          hmp hinv (c.decompose a.address).2.1 idx hsi hidxlt
          (CacheLine.new (c.decompose a.address).2.2 (c.decompose a.address).1 c1.next_stamp)
          rfl hcIs hcIn rfl
          ⟨(clear_frame mp _ _ idx).1, (clear_frame mp _ _ idx).2.1,
            (clear_frame mp _ _ idx).2.2⟩
          (fun x => clear_column_eq mp _ _ idx x)
          (fun a2 b2 => clear_index_eq mp _ _ idx a2 b2)
          ?_ ?_ ?_ ?_
        · intro s2 col2 hs2 hcol2 hs2lt
          exact clear_far mp _ old.block_address idx s2 col2 hcol2 hcmo hs2
        · intro col2 w2 hcol2 hw2 hne
          exact clear_near mp _ old.block_address idx col2 w2 hcol2 hcmo hleno hw2 hne
        · intro hway col2 hcol2
          rw [clear_at mp _ old.block_address idx col2 hcol2 hcmo hleno hway]
          by_cases hce : col2 = mp.column old.block_address
          · rw [if_pos hce]
            constructor
            · intro hx
              cases hx
            · rintro ⟨hh2, hcx⟩
              simp [CacheLine.new] at hh2
          · rw [if_neg hce]
            rw [hinv.bits_iff mp hmp _ col2 idx hsi hcol2 hway]
            constructor
            · rintro ⟨line2, hline2, hcl2, hh2⟩
              rw [hgets] at hline2
              cases hline2
              exact (hce hcl2.symm).elim
            · rintro ⟨hh2, hcx⟩
              simp [CacheLine.new] at hh2
        · intro v1 hv1 l hl
          replace hv1 : (match cI.victim with
              | some v => some (v.insert old cI.next_stamp)
              | Option.none => (Option.none : Option VictimBuffer)) = some v1 := hv1
          rcases hcv : cI.victim with _ | v
          · rw [hcv] at hv1
            cases hv1
          · rw [hcv] at hv1
            cases hv1
            rcases insert_entries_mem v old cI.next_stamp l hl with hmem | heq
            · exact hvicgen v (by rw [← hcIv]; exact hcv) l hmem
            · subst heq
              exact htago
    · -- empty slot: plain install, no predictor change
      have hfn1 : firstNoneIdx (c1.sets.getD (c.decompose a.address).2.1 []) = some idx := by
        rw [hf1]; exact hfn
      obtain ⟨hslot, hidxlt⟩ := firstNoneIdx_spec _ idx hfn
      have hinst := install_line_empty c1 (c.decompose a.address).2.1
        (CacheLine.new (c.decompose a.address).2.2 (c.decompose a.address).1 c1.next_stamp)
        idx hfn1
      have hstate : (c.process_access a s).1 =
          { c1 with
            sets := c1.sets.set (c.decompose a.address).2.1
              ((c1.sets.getD (c.decompose a.address).2.1 []).set idx
                (some (CacheLine.new (c.decompose a.address).2.2
                  (c.decompose a.address).1 c1.next_stamp))),
            next_stamp := c1.next_stamp + 1 } := by
        rw [process_access_miss_eq c a s hmiss hvt, hinst]
        rfl
      rw [hstate]
      refine MCInv_core c _ mp mp hmp hinv (c.decompose a.address).2.1 idx hsi hidxlt
        (CacheLine.new (c.decompose a.address).2.2 (c.decompose a.address).1 c1.next_stamp)
        rfl ?_ hf3 hmp1 ⟨rfl, rfl, rfl⟩ (fun x => rfl) (fun a2 b2 => rfl)
        (fun s2 col2 _ _ _ => rfl) (fun col2 w2 _ _ _ => rfl) ?_ hvicgen
      · show c1.sets.set (c.decompose a.address).2.1
            ((c1.sets.getD (c.decompose a.address).2.1 []).set idx
              (some (CacheLine.new (c.decompose a.address).2.2
                (c.decompose a.address).1 c1.next_stamp))) = _
        rw [hf1]
      · intro hway col2 hcol2
        rw [hinv.bits_iff mp hmp _ col2 idx hsi hcol2 hway]
        constructor
        · rintro ⟨line2, hline2, hcl2, hh2⟩
          rw [hslot] at hline2
          cases hline2
        · rintro ⟨hh2, hcx⟩
          simp [CacheLine.new] at hh2
  · -- victim recovery
    obtain ⟨hba0, v0, hv0, hmem0⟩ := hfline line0 rfl
    have htag0 : line0.block_address / c.num_sets = line0.tag :=
      hinv.victim_tag v0 hv0 line0 hmem0
    have hcm : mp.column (c.decompose a.address).1 < mp.columns := column_lt mp _ hsh2
    have hlen : mp.index (c.decompose a.address).2.1
        (mp.column (c.decompose a.address).1) < mp.bits.length :=
      index_len mp c.num_sets hsh2 hsh3 _ hsi _
    have hsetslen : (c.decompose a.address).2.1 < c.sets.length := by
      rw [hinv.sets_len]; exact hsi
    rcases hfn : firstNoneIdx (c.sets.getD (c.decompose a.address).2.1 []) with _ | idx
    · -- full set: eviction, then mark-hit and mark
      have hfull1 : firstNoneIdx (c1.sets.getD (c.decompose a.address).2.1 []) =
          Option.none := by
        rw [hf1]; exact hfn
      have hne0 : c.sets.getD (c.decompose a.address).2.1 [] ≠ [] :=
        hinv.ways_pos _ hsi
      have hidxlt : find_victim_index c1.prediction_mode c1.multi_predictor
          (c.decompose a.address).2.1 (c1.sets.getD (c.decompose a.address).2.1 []) <
          (c.sets.getD (c.decompose a.address).2.1 []).length := by
        rw [hf1]
        exact find_victim_index_lt _ _ _ _ hne0
      set idx := find_victim_index c1.prediction_mode c1.multi_predictor
        (c.decompose a.address).2.1 (c1.sets.getD (c.decompose a.address).2.1 []) with hidxdef
      have hsome := firstNoneIdx_none_spec _ hfn idx hidxlt
      rcases hgets : (c.sets.getD (c.decompose a.address).2.1 []).getD idx Option.none with
        _ | old
      · rw [hgets] at hsome; cases hsome
      · have hold1 : (c1.sets.getD (c.decompose a.address).2.1 []).getD
            (find_victim_index c1.prediction_mode c1.multi_predictor
              (c.decompose a.address).2.1 (c1.sets.getD (c.decompose a.address).2.1 []))
            Option.none = some old := by
          rw [← hidxdef, hf1]
          exact hgets
        have hinst := install_line_full c1 (c.decompose a.address).2.1
          { line0 with stamp := c1.next_stamp } hfull1 hold1
        rw [if_neg hnotmru, ← hidxdef] at hinst
        rcases hinstd : c1.install_line (c.decompose a.address).2.1
          { line0 with stamp := c1.next_stamp } with ⟨cI, idx2, ev⟩
        rw [hinstd] at hinst
        simp only [Prod.mk.injEq] at hinst
        obtain ⟨hcI, hidx2, hev⟩ := hinst
        have hcIs : cI.sets = c.sets.set (c.decompose a.address).2.1
            ((c.sets.getD (c.decompose a.address).2.1 []).set idx
              (some { line0 with stamp := c1.next_stamp })) := by
          simp only [hcI]
          rw [hf1]
        have hcIn : cI.num_sets = c.num_sets := by simp only [hcI]; exact hf3
        have hcIv : cI.victim = c1.victim := by simp only [hcI]
        have hcIns : cI.next_stamp = c1.next_stamp := by simp only [hcI]
        have hcImp : cI.multi_predictor = some mp := by simp only [hcI]; exact hmp1
        have hslotI : (cI.sets.getD (c.decompose a.address).2.1 []).getD idx Option.none =
            some { line0 with stamp := c1.next_stamp } := by
          rw [hcIs, getD_set_self _ _ _ _ hsetslen, getD_set_self _ _ _ _ hidxlt]
        have hcmo : mp.column old.block_address < mp.columns := column_lt mp _ hsh2
        have hleno : mp.index (c.decompose a.address).2.1 (mp.column old.block_address) <
            mp.bits.length :=
          index_len mp c.num_sets hsh2 hsh3 _ hsi _
        have htago : old.block_address / c.num_sets = old.tag :=
          hinv.line_tag _ _ _ hgets
        have hstate : (c.process_access a s).1 =
            { cI with
              sets := cI.sets.set (c.decompose a.address).2.1
                ((cI.sets.getD (c.decompose a.address).2.1 []).set idx
                  (some { line0 with stamp := c1.next_stamp, has_received_hit := true })),
              multi_predictor := some ((mp.clear (c.decompose a.address).2.1
                old.block_address idx).mark (c.decompose a.address).2.1
                (c.decompose a.address).1 idx),
              victim :=
                match cI.victim with
                | some v => some (v.insert old cI.next_stamp)
                | Option.none => Option.none,
              next_stamp := cI.next_stamp + 1 } := by
          have hslotJ : (cI.sets[(c.decompose a.address).2.1]?.getD [])[idx]?.getD
              Option.none = some { line0 with stamp := c1.next_stamp } := by
            rw [← List.getD_eq_getElem?_getD, ← List.getD_eq_getElem?_getD]
            exact hslotI
          rw [process_access_vhit_eq c a s hmiss hvt, hinstd]
          simp only [hev, hidx2]
          rw [handle_eviction_full_eq cI (c.decompose a.address).2.1 old idx mp hcImp]
          simp [Cache.mark_hit_at, Cache.update_multi_column_on_hit, hslotJ]
        rw [hstate]
        have hP1 : (mp.clear (c.decompose a.address).2.1 old.block_address idx).columns
            = mp.columns := (clear_frame mp _ _ idx).2.1
        have hP2 : ∀ x, (mp.clear (c.decompose a.address).2.1 old.block_address idx).column x
            = mp.column x := fun x => clear_column_eq mp _ _ idx x
        have hP3 : ∀ a2 b2, (mp.clear (c.decompose a.address).2.1
            old.block_address idx).index a2 b2 = mp.index a2 b2 :=
          fun a2 b2 => clear_index_eq mp _ _ idx a2 b2
        have hPlen : (mp.clear (c.decompose a.address).2.1 old.block_address idx).index
            (c.decompose a.address).2.1
            ((mp.clear (c.decompose a.address).2.1 old.block_address idx).column
              (c.decompose a.address).1) <
            (mp.clear (c.decompose a.address).2.1 old.block_address idx).bits.length := by
          rw [hP3, hP2, (clear_frame mp _ _ idx).2.2]
          exact hlen
        refine MCInv_core c _ mp
          ((mp.clear (c.decompose a.address).2.1 old.block_address idx).mark
            (c.decompose a.address).2.1 (c.decompose a.address).1 idx)
          hmp hinv (c.decompose a.address).2.1 idx hsi hidxlt
          { line0 with stamp := c1.next_stamp, has_received_hit := true }
          htag0 ?_ hcIn rfl
          ⟨((mark_frame _ _ _ idx).1).trans (clear_frame mp _ _ idx).1,
            ((mark_frame _ _ _ idx).2.1).trans hP1,
            ((mark_frame _ _ _ idx).2.2).trans (clear_frame mp _ _ idx).2.2⟩
          (fun x => ((mark_column_eq _ _ _ idx x).trans (hP2 x)))
          (fun a2 b2 => ((mark_index_eq _ _ _ idx a2 b2).trans (hP3 a2 b2)))
          ?_ ?_ ?_ ?_
        · show cI.sets.set (c.decompose a.address).2.1
              ((cI.sets.getD (c.decompose a.address).2.1 []).set idx
                (some { line0 with stamp := c1.next_stamp, has_received_hit := true })) = _
          rw [hcIs, getD_set_self _ _ _ _ hsetslen, List.set_set, List.set_set]
        · intro s2 col2 hs2 hcol2 hs2lt
          have h1 := mark_far (mp.clear (c.decompose a.address).2.1 old.block_address idx)
            (c.decompose a.address).2.1 (c.decompose a.address).1 idx s2 col2
            (by rw [hP1]; exact hcol2) (by rw [hP2, hP1]; exact hcm) hs2
          rw [hP3] at h1
          rw [h1]
          exact clear_far mp _ old.block_address idx s2 col2 hcol2 hcmo hs2
        · intro col2 w2 hcol2 hw2 hne
          have h1 := mark_near (mp.clear (c.decompose a.address).2.1 old.block_address idx)
            (c.decompose a.address).2.1 (c.decompose a.address).1 idx col2 w2
            (by rw [hP1]; exact hcol2) (by rw [hP2, hP1]; exact hcm) hPlen hne
          rw [hP3] at h1
          rw [h1]
          exact clear_near mp _ old.block_address idx col2 w2 hcol2 hcmo hleno hw2 hne
        · intro hway col2 hcol2
          have h1 := mark_at (mp.clear (c.decompose a.address).2.1 old.block_address idx)
            (c.decompose a.address).2.1 (c.decompose a.address).1 idx col2
            (by rw [hP1]; exact hcol2) (by rw [hP2, hP1]; exact hcm) hPlen hway
          rw [hP3, hP2] at h1
          rw [h1]
          by_cases hce : col2 = mp.column (c.decompose a.address).1
          · rw [if_pos hce]
            constructor
            · intro _
              refine ⟨rfl, ?_⟩
              show mp.column line0.block_address = col2
              rw [hba0, hce]
            · intro _
              rfl
          · rw [if_neg hce]
            rw [clear_at mp _ old.block_address idx col2 hcol2 hcmo hleno hway]
            by_cases hce2 : col2 = mp.column old.block_address
            · rw [if_pos hce2]
              constructor
              · intro hx
                cases hx
              · rintro ⟨hh2, hcx⟩
                apply absurd ?_ hce
                have hc3 : mp.column line0.block_address = col2 := hcx
                rw [← hba0]
                exact hc3.symm
            · rw [if_neg hce2]
              rw [hinv.bits_iff mp hmp _ col2 idx hsi hcol2 hway]
              constructor
              · rintro ⟨line2, hline2, hcl2, hh2⟩
                rw [hgets] at hline2
                cases hline2
                exact (hce2 hcl2.symm).elim
              · rintro ⟨hh2, hcx⟩
                apply absurd ?_ hce
                have hc3 : mp.column line0.block_address = col2 := hcx
                rw [← hba0]
                exact hc3.symm
        · intro v1 hv1 l hl
          replace hv1 : (match cI.victim with
              | some v => some (v.insert old cI.next_stamp)
              | Option.none => (Option.none : Option VictimBuffer)) = some v1 := hv1
          rcases hcv : cI.victim with _ | v
          · rw [hcv] at hv1
            cases hv1
          · rw [hcv] at hv1
            cases hv1
            rcases insert_entries_mem v old cI.next_stamp l hl with hmem | heq
            · exact hvicgen v (by rw [← hcIv]; exact hcv) l hmem
            · subst heq
              exact htago
    · -- empty slot: install, mark-hit and mark, no eviction
      have hfn1 : firstNoneIdx (c1.sets.getD (c.decompose a.address).2.1 []) = some idx := by
        rw [hf1]; exact hfn
      obtain ⟨hslot, hidxlt⟩ := firstNoneIdx_spec _ idx hfn
      have hinst := install_line_empty c1 (c.decompose a.address).2.1
        { line0 with stamp := c1.next_stamp } idx hfn1
      rcases hinstd : c1.install_line (c.decompose a.address).2.1
        { line0 with stamp := c1.next_stamp } with ⟨cI, idx2, ev⟩
      rw [hinstd] at hinst
      simp only [Prod.mk.injEq] at hinst
      obtain ⟨hcI, hidx2, hev⟩ := hinst
      have hcIs : cI.sets = c.sets.set (c.decompose a.address).2.1
          ((c.sets.getD (c.decompose a.address).2.1 []).set idx
            (some { line0 with stamp := c1.next_stamp })) := by
        simp only [hcI]
        rw [hf1]
      have hcIn : cI.num_sets = c.num_sets := by simp only [hcI]; exact hf3
      have hcIv : cI.victim = c1.victim := by simp only [hcI]
      have hcImp : cI.multi_predictor = some mp := by simp only [hcI]; exact hmp1
      have hslotI : (cI.sets.getD (c.decompose a.address).2.1 []).getD idx Option.none =
          some { line0 with stamp := c1.next_stamp } := by
        rw [hcIs, getD_set_self _ _ _ _ hsetslen, getD_set_self _ _ _ _ hidxlt]
      have hstate : (c.process_access a s).1 =
          { cI with
            sets := cI.sets.set (c.decompose a.address).2.1
              ((cI.sets.getD (c.decompose a.address).2.1 []).set idx
                (some { line0 with stamp := c1.next_stamp, has_received_hit := true })),
            multi_predictor := some (mp.mark (c.decompose a.address).2.1
              (c.decompose a.address).1 idx),
            next_stamp := cI.next_stamp + 1 } := by
        have hslotJ : (cI.sets[(c.decompose a.address).2.1]?.getD [])[idx]?.getD
            Option.none = some { line0 with stamp := c1.next_stamp } := by
          rw [← List.getD_eq_getElem?_getD, ← List.getD_eq_getElem?_getD]
          exact hslotI
        rw [process_access_vhit_eq c a s hmiss hvt, hinstd]
        simp only [hev, hidx2, Cache.handle_eviction]
        simp [Cache.mark_hit_at, Cache.update_multi_column_on_hit, hslotJ, hcImp]
      rw [hstate]
      refine MCInv_core c _ mp
        (mp.mark (c.decompose a.address).2.1 (c.decompose a.address).1 idx)
        hmp hinv (c.decompose a.address).2.1 idx hsi hidxlt
        { line0 with stamp := c1.next_stamp, has_received_hit := true }
        htag0 ?_ hcIn rfl
        ⟨(mark_frame mp _ _ idx).1, (mark_frame mp _ _ idx).2.1, (mark_frame mp _ _ idx).2.2⟩
        (fun x => mark_column_eq mp _ _ idx x)
        (fun a2 b2 => mark_index_eq mp _ _ idx a2 b2)
        ?_ ?_ ?_ ?_
      · show cI.sets.set (c.decompose a.address).2.1
            ((cI.sets.getD (c.decompose a.address).2.1 []).set idx
              (some { line0 with stamp := c1.next_stamp, has_received_hit := true })) = _
        rw [hcIs, getD_set_self _ _ _ _ hsetslen, List.set_set, List.set_set]
      · intro s2 col2 hs2 hcol2 hs2lt
        exact mark_far mp _ _ idx s2 col2 hcol2 hcm hs2
      · intro col2 w2 hcol2 hw2 hne
        exact mark_near mp _ _ idx col2 w2 hcol2 hcm hlen hne
      · intro hway col2 hcol2
        rw [mark_at mp _ _ idx col2 hcol2 hcm hlen hway]
        by_cases hce : col2 = mp.column (c.decompose a.address).1
        · rw [if_pos hce]
          constructor
          · intro _
            refine ⟨rfl, ?_⟩
            show mp.column line0.block_address = col2
            rw [hba0, hce]
          · intro _
            rfl
        · rw [if_neg hce]
          rw [hinv.bits_iff mp hmp _ col2 idx hsi hcol2 hway]
          constructor
          · rintro ⟨line2, hline2, hcl2, hh2⟩
            rw [hslot] at hline2
            cases hline2
          · rintro ⟨hh2, hcx⟩
            apply absurd ?_ hce
            have hc3 : mp.column line0.block_address = col2 := hcx
            rw [← hba0]
            exact hc3.symm
      · intro v1 hv1 l hl
        replace hv1 : cI.victim = some v1 := hv1
        rw [hcIv] at hv1
        exact hvicgen v1 hv1 l hl


theorem update_mc_mode (c : Cache) (si ba w : Nat) :
    (c.update_multi_column_on_hit si ba w).prediction_mode = c.prediction_mode := by
  simp only [Cache.update_multi_column_on_hit]
  rcases h : c.multi_predictor with _ | p <;> rfl

theorem mark_hit_at_mode (c : Cache) (si w : Nat) :
    (c.mark_hit_at si w).prediction_mode = c.prediction_mode := by
  simp only [Cache.mark_hit_at]
  rcases h : (c.sets.getD si []).getD w Option.none with _ | line <;> rfl

theorem handle_eviction_mode (c : Cache) (si : Nat) (ev : Option (CacheLine × Nat)) :
    (c.handle_eviction si ev).prediction_mode = c.prediction_mode := by
  rcases ev with _ | ⟨old, w⟩
  · rfl
  · simp only [Cache.handle_eviction, Cache.multi_column_on_evict, Cache.victim_insert]
    rcases h : c.multi_predictor with _ | p <;> rcases h2 : c.victim with _ | v <;> rfl

theorem install_line_mode (c : Cache) (si : Nat) (ln : CacheLine) :
    (c.install_line si ln).1.prediction_mode = c.prediction_mode := by
  simp only [Cache.install_line]
  rcases h1 : firstNoneIdx (c.sets.getD si []) with _ | idx
  · rcases h2 : (c.sets.getD si []).getD
        (find_victim_index c.prediction_mode c.multi_predictor si (c.sets.getD si []))
        Option.none with _ | ev <;> rfl
  · rfl

theorem process_access_mode (c : Cache) (a : TraceAccess) (s : CacheStats) :
    (c.process_access a s).1.prediction_mode = c.prediction_mode := by
  rcases hh : c.touch_if_hit (c.decompose a.address).2.1 (c.decompose a.address).2.2 with
    _ | ⟨⟨c2, way, b⟩⟩
  · rcases hvt : c.victim_take (c.decompose a.address).1 with ⟨vl, c1⟩
    obtain ⟨hf1, hf2, hf3, hf4, hf5, hf6, hfvic, hfline⟩ := victim_take_spec c _ vl c1 hvt
    rcases vl with _ | line
    · rw [process_access_miss_eq c a s hh hvt]
      simp only [handle_eviction_mode, install_line_mode]
      exact hf6
    · rw [process_access_vhit_eq c a s hh hvt]
      simp only [update_mc_mode, mark_hit_at_mode, handle_eviction_mode, install_line_mode]
      exact hf6
  · obtain ⟨line, hl1, hl2, hl3, hl4, hc2⟩ := touch_if_hit_spec c _ _ hh
    rw [process_access_hit_eq c a s hh]
    simp only [update_mc_mode, hc2]

theorem MCInv_process_access (c : Cache) (a : TraceAccess) (s : CacheStats)
    (hmode : c.prediction_mode = PredictionStrategy.multiColumn)
    (hinv : MCInv c) : MCInv (c.process_access a s).1 := by
  rcases hh : c.touch_if_hit (c.decompose a.address).2.1 (c.decompose a.address).2.2 with
    _ | ⟨⟨c2, way, b⟩⟩
  · exact MCInv_miss_path c a s hmode hh hinv
  · exact MCInv_hit_path c a s hh hinv

theorem run_state_MCInv (trace : List TraceAccess) : ∀ (c : Cache) (s : CacheStats),
    c.prediction_mode = PredictionStrategy.multiColumn → MCInv c →
    MCInv (c.run_state s trace).1 := by
  induction trace with
  | nil =>
    intro c s hm hi
    exact hi
  | cons a rest ih =>
    intro c s hm hi
    show MCInv ((c.process_access a s).1.run_state (c.process_access a s).2 rest).1
    refine ih (c.process_access a s).1 (c.process_access a s).2 ?_
      (MCInv_process_access c a s hm hi)
    rw [process_access_mode]
    exact hm

theorem MCInv_new (cfg : CacheConfig)
    (hpred : cfg.prediction = PredictionStrategy.multiColumn) : MCInv (Cache.new cfg) := by
  have hnone : ∀ s w, (((Cache.new cfg).sets.getD s [])).getD w Option.none =
      (Option.none : Option CacheLine) := by
    intro s w
    show ((List.replicate cfg.num_sets
        (List.replicate (waysOf cfg) (Option.none : Option CacheLine))).getD s []).getD w
        Option.none = Option.none
    by_cases hs : s < cfg.num_sets
    · have h1 : (List.replicate cfg.num_sets
          (List.replicate (waysOf cfg) (Option.none : Option CacheLine))).getD s [] =
          List.replicate (waysOf cfg) (Option.none : Option CacheLine) := by
        rw [List.getD_eq_getElem?_getD, List.getElem?_replicate, if_pos hs]
        rfl
      rw [h1, List.getD_eq_getElem?_getD, List.getElem?_replicate]
      by_cases hw : w < waysOf cfg
      · rw [if_pos hw]
        rfl
      · rw [if_neg hw]
        rfl
    · have h1 : (List.replicate cfg.num_sets
          (List.replicate (waysOf cfg) (Option.none : Option CacheLine))).getD s [] =
          ([] : List (Option CacheLine)) := by
        rw [List.getD_eq_getElem?_getD, List.getElem?_replicate, if_neg hs]
        rfl
      rw [h1]
      rfl
  have hmp : (Cache.new cfg).multi_predictor =
      some (MultiColumnPredictor.new cfg.num_sets (waysOf cfg)) := by
    simp [Cache.new, hpred]
  refine ⟨?_, num_sets_pos cfg, ?_, ⟨_, hmp⟩, ?_, ?_, ?_, ?_⟩
  · exact List.length_replicate _ _
  · intro s hs
    have hs2 : s < cfg.num_sets := hs
    show (List.replicate cfg.num_sets
        (List.replicate (waysOf cfg) (Option.none : Option CacheLine))).getD s [] ≠ []
    rw [List.getD_eq_getElem?_getD, List.getElem?_replicate, if_pos hs2]
    show List.replicate (waysOf cfg) (Option.none : Option CacheLine) ≠ []
    have hw := waysOf_pos cfg
    simp only [ne_eq, List.replicate_eq_nil]
    omega
  · intro mp hmp2
    rw [hmp] at hmp2
    cases hmp2
    refine ⟨rfl, ?_, ?_⟩
    · show 0 < min (max (if waysOf cfg ≤ 1 then 1 else if waysOf cfg ≤ 4 then 2
        else if waysOf cfg ≤ 8 then 4 else 8) 1) (max (waysOf cfg) 1)
      exact lt_min (by positivity) (by positivity)
    · exact List.length_replicate _ _
  · intro s w line hline
    rw [hnone] at hline
    cases hline
  · intro v hv line hline
    revert hv
    show (if 0 < cfg.victim_cache_entries then some (VictimBuffer.new cfg.victim_cache_entries)
      else Option.none) = some v → _
    by_cases hvc : 0 < cfg.victim_cache_entries
    · rw [if_pos hvc]
      intro hv
      cases hv
      cases hline
    · rw [if_neg hvc]
      intro hv
      cases hv
  · intro mp hmp2 s col w hs hcol hw
    rw [hmp] at hmp2
    cases hmp2
    constructor
    · intro hbit
      exfalso
      have hz : (MultiColumnPredictor.new cfg.num_sets (waysOf cfg)).bits.getD
          ((MultiColumnPredictor.new cfg.num_sets (waysOf cfg)).index s col) 0 = 0 := by
        show (List.replicate ((MultiColumnPredictor.new cfg.num_sets (waysOf cfg)).sets *
          (MultiColumnPredictor.new cfg.num_sets (waysOf cfg)).columns) 0).getD _ 0 = 0
        rw [List.getD_eq_getElem?_getD, List.getElem?_replicate]
        by_cases hi : (MultiColumnPredictor.new cfg.num_sets (waysOf cfg)).index s col <
            (MultiColumnPredictor.new cfg.num_sets (waysOf cfg)).sets *
            (MultiColumnPredictor.new cfg.num_sets (waysOf cfg)).columns
      
        · rw [if_pos hi]
          rfl
        · rw [if_neg hi]
          rfl
      rw [hz] at hbit
      simp at hbit
    · rintro ⟨line, hline, _, _⟩
      rw [hnone] at hline
      cases hline

/-- C3 counterexample: after a single plain miss on a fresh 2-way MultiColumn
cache, block 0 is resident in way 0 of set 0 (and belongs to column 0), yet
bit 0 of `bits[0, 0]` is still clear — the plain-miss install path never
calls `mark`, so the bit table does not track mere residence. -/
theorem C3_bits_cex :
    (cacheC3state.sets.getD 0 []).getD 0 Option.none =
      some { tag := 0, block_address := 0, stamp := 1, has_received_hit := false } ∧
    cacheC3state.multi_predictor.map
      (fun mp => (mp.bits.getD (mp.index 0 (mp.column 0)) 0).testBit 0) = some false := by
  constructor
  · rfl
  · rfl

/-- C3 (amended): with the MultiColumn predictor enabled, at every reachable
state of a run bit `w` of `bits[set, col]` is set iff the line currently
resident in way `w` of that set belongs to column `col` and has been marked
since its installation into that way — it received a primary hit there, or
was installed through victim-buffer recovery. A plain-miss install does not
call `mark`, so a freshly installed line's bit stays clear until its first
hit; every eviction still calls `clear` for the evicted way, keeping the
table consistent with this flag. -/
theorem C3_multicolumn_bits (cfg : CacheConfig) (s0 : CacheStats)
    (trace : List TraceAccess)
    (hpred : cfg.prediction = PredictionStrategy.multiColumn)
    (mp : MultiColumnPredictor)
    (hmp : ((Cache.new cfg).run_state s0 trace).1.multi_predictor = some mp)
    (s col w : Nat)
    (hs : s < ((Cache.new cfg).run_state s0 trace).1.num_sets)
    (hcol : col < mp.columns) (hw : w < 32) :
    (mp.bits.getD (mp.index s col) 0).testBit w = true ↔
      ∃ line, ((((Cache.new cfg).run_state s0 trace).1.sets.getD s []).getD w
        Option.none = some line) ∧
        mp.column line.block_address = col ∧ line.has_received_hit = true := by
  have hmode : (Cache.new cfg).prediction_mode = PredictionStrategy.multiColumn := by
    show cfg.prediction = PredictionStrategy.multiColumn
    exact hpred
  have hinv := run_state_MCInv trace (Cache.new cfg) s0 hmode (MCInv_new cfg hpred)
  exact hinv.bits_iff mp hmp s col w hs hcol hw

theorem C3_multicolumn_bits_witness :
    cfgC3.prediction = PredictionStrategy.multiColumn ∧
    (((⟨[1, 0], 1, 2⟩ : MultiColumnPredictor).bits.getD
        ((⟨[1, 0], 1, 2⟩ : MultiColumnPredictor).index 0 0) 0).testBit 0 = true ↔
      ∃ line, ((cacheC3state2.sets.getD 0 []).getD 0 Option.none = some line) ∧
        (⟨[1, 0], 1, 2⟩ : MultiColumnPredictor).column line.block_address = 0 ∧
        line.has_received_hit = true) :=
  ⟨rfl, C3_multicolumn_bits cfgC3 (CacheStats.new PredictionStrategy.multiColumn)
    [⟨AccessKind.read, 0⟩, ⟨AccessKind.read, 0⟩] rfl ⟨[1, 0], 1, 2⟩ rfl 0 0 0
    (by decide) (by decide) (by decide)⟩

end CacheEmu
